import Mathlib

/-!
# Event subscriptions of sc-memory (`sc-store/sc_event.c`, `sc_wait.hpp`)

A shallow embedding of the event registry, the reference-counted subscription
life cycle and the emit path of `sc_event.c`, and of the blocking wait of
`sc_wait.hpp`, followed by the properties proved about them.

Conventions of the embedding

* A pointer `sc_event *` is an address (`Nat`) into `State.heap`; `null_ptr` is
  `0` for the callback slots and `none` for a returned subscription.
* `g_assert` failing aborts the process: the operation yields
  `Except.error Fault.assertion`.
* `sc_event_lock` sleeps in a loop while another thread owns the lock; taken as
  one atomic step it has no result in such a state: `Except.error Fault.spin`.
* Calls that leave this file (storage reference counting, the delete callback,
  `g_free`) are recorded, in order, in `State.log`; the delivery queue is the
  list `State.event_queue`.
-/

namespace ScEvent

/-! ## Data model -/

/-- Ways in which an operation does not return. -/
inductive Fault where
  | assertion
  | spin
  deriving DecidableEq, Repr

/-- Result codes used by `sc_event.c`. -/
inductive sc_result where
  | SC_RESULT_OK
  | SC_RESULT_ERROR
  | SC_RESULT_ERROR_INVALID_PARAMS
  deriving DecidableEq, Repr

/-- Modelled from the spec: the header `sc_event_private.h` that declares the
constant is missing. The destroy-requested flag is a reserved high bit of the
32-bit `ref_count` (it cannot be bit 0, since `sc_event_new` stores 1 in a
subscription that is not marked). -/
def SC_EVENT_REQUEST_DESTROY : Nat := 2 ^ 31

/-- Modelled from the spec: the header `sc_event_private.h` is missing. The live
reference count occupies the remaining bits below the flag. -/
def SC_EVENT_REF_COUNT_MASK : Nat := 2 ^ 31 - 1

/-- Modelled from the spec: the `sc_addr` type and `SC_ADDR_IS_EMPTY` are declared
in a missing header. An element identifier is its raw identity value, which is
also its table key (`TABLE_KEY`); the empty address is the value 0. -/
def SC_ADDR_IS_EMPTY (el : Nat) : Bool := el == 0

/-- The record `struct _sc_event`; the fields are those the source reads and
writes. `ref_count` is a `sc_uint32`. -/
structure sc_event where
  element : Nat
  type : Nat
  data : Nat
  callback : Nat
  callback_ex : Nat
  delete_callback : Nat
  ref_count : Nat
  thread_lock : Nat
  access_levels : Nat
  deriving DecidableEq, Repr

/-- A block returned by `g_new0`: every field is zero. -/
def g_new0 : sc_event :=
  { element := 0, type := 0, data := 0, callback := 0, callback_ex := 0,
    delete_callback := 0, ref_count := 0, thread_lock := 0, access_levels := 0 }

/-- The part of `sc_memory_context` the event code reads. -/
structure sc_memory_context where
  id : Nat
  access_levels : Nat
  deriving DecidableEq, Repr

/-- The collaborators declared outside this file, taken as parameters:
`sc_storage_get_access_levels` (`none` when the result is not `SC_RESULT_OK`)
and the macro `sc_access_lvl_check_read`. -/
structure Extern where
  sc_storage_get_access_levels : sc_memory_context → Nat → Option Nat
  sc_access_lvl_check_read : Nat → Nat → Bool

/-- Calls that leave `sc_event.c`, as recorded in `State.log`. -/
inductive Ext where
  | sc_storage_element_ref (el : Nat)
  | sc_storage_element_unref (el : Nat)
  | delete_callback (f : Nat) (evt : Nat)
  | g_free (evt : Nat)
  deriving DecidableEq, Repr

/-- A `GHashTable` from element keys to `GSList`s of subscription addresses. -/
abbrev GHashTable := List (Nat × List Nat)

/-- The global state: the heap of `sc_event` records, the allocation frontier
(addresses are handed out in increasing order and never reused, so an address
names one subscription for ever), `events_table`, `event_queue` and the log of
outgoing calls. -/
structure State where
  heap : Nat → sc_event
  brk : Nat
  events_table : Option GHashTable
  event_queue : List (Nat × Nat × Nat)
  log : List Ext

/-- Overwrite one heap cell. -/
def State.store (s : State) (p : Nat) (e : sc_event) : State :=
  { s with heap := fun q => if q = p then e else s.heap q }

/-- The state before anything was registered: `events_table = 0`. -/
def State.init : State :=
  { heap := fun _ => g_new0, brk := 1, events_table := none, event_queue := [], log := [] }

/-! ## GLib containers -/

/-- The value stored under a key, `NULL` (the empty list) when there is none. -/
def g_hash_table_lookup : GHashTable → Nat → List Nat
  | [], _ => []
  | (k1, v) :: t, k => if k1 = k then v else g_hash_table_lookup t k

/-- Store a value under a key, replacing the value of an existing key. -/
def g_hash_table_insert : GHashTable → Nat → List Nat → GHashTable
  | [], k, v => [(k, v)]
  | (k1, v1) :: t, k, v =>
    if k1 = k then (k1, v) :: t else (k1, v1) :: g_hash_table_insert t k v

/-- Drop a key. -/
def g_hash_table_remove (t : GHashTable) (k : Nat) : GHashTable :=
  t.filter (fun e => e.1 != k)

/-- Number of keys. -/
def g_hash_table_size (t : GHashTable) : Nat := t.length

/-- Append at the end of a list. -/
def g_slist_append (l : List Nat) (x : Nat) : List Nat := l ++ [x]

/-- Remove the first node holding the value, if any. -/
def g_slist_remove (l : List Nat) (x : Nat) : List Nat := l.erase x

/-- The list registered for an element, empty when `events_table` is null. -/
def State.lookup (s : State) (k : Nat) : List Nat :=
  match s.events_table with
  | none => []
  | some t => g_hash_table_lookup t k

/-! ## Flag and live count -/

/-- The test `ref_count & SC_EVENT_REQUEST_DESTROY`. -/
def destroy_requested (e : sc_event) : Bool :=
  e.ref_count &&& SC_EVENT_REQUEST_DESTROY != 0

/-- The live reference count `ref_count & SC_EVENT_REF_COUNT_MASK`. -/
def live_count (e : sc_event) : Nat :=
  e.ref_count &&& SC_EVENT_REF_COUNT_MASK

/-! ## Lock primitive -/

/-- Source `sc_event_lock` (lines 334-353): returns at once when the caller already owns the lock, takes a
free lock, and keeps sleeping while another thread owns it. -/
def sc_event_lock (thread : Nat) (evt : sc_event) : Except Fault sc_event :=
  if evt.thread_lock = thread then .ok evt
  else if evt.thread_lock ≠ 0 then .error .spin
  else .ok { evt with thread_lock := thread }

/-- Source `sc_event_unlock` (lines 355-363): logs a critical message (first component) when the caller is
not the recorded owner, and stores 0 in `thread_lock` in every case. -/
def sc_event_unlock (thread : Nat) (evt : sc_event) : Bool × sc_event :=
  (evt.thread_lock != thread, { evt with thread_lock := 0 })

/-! ## Registry -/

/-- Source `insert_event_into_table` (lines 35-53): the table is created when it
is null, the event is appended to the list found under the key of its element
and the list is stored back; the result is always `SC_RESULT_OK`. -/
def insert_event_into_table (s : State) (event : Nat) : State × sc_result :=
  let table := match s.events_table with
    | none => []
    | some t => t
  let key := (s.heap event).element
  let element_events_list := g_hash_table_lookup table key
  let element_events_list := g_slist_append element_events_list event
  ({ s with events_table := some (g_hash_table_insert table key element_events_list) },
    .SC_RESULT_OK)

/-- Source `remove_event_from_table` (lines 56-91): asserts that the table
exists, fails with `SC_RESULT_ERROR_INVALID_PARAMS` when the element has no
list, otherwise removes the event from the list, drops the key when the list
became empty and destroys the table when no key is left. -/
def remove_event_from_table (s : State) (event : Nat) : Except Fault (State × sc_result) :=
  match s.events_table with
  | none => .error .assertion
  | some table =>
    let key := (s.heap event).element
    let element_events_list := g_hash_table_lookup table key
    if element_events_list = [] then .ok (s, .SC_RESULT_ERROR_INVALID_PARAMS)
    else
      let element_events_list := g_slist_remove element_events_list event
      let table :=
        if element_events_list = [] then g_hash_table_remove table key
        else g_hash_table_insert table key element_events_list
      if g_hash_table_size table = 0 then
        .ok ({ s with events_table := none }, .SC_RESULT_OK)
      else
        .ok ({ s with events_table := some table }, .SC_RESULT_OK)

/-! ## Reference counting -/

/-- Source `_sc_event_try_emit` (lines 94-111), on the record the pointer names. -/
def _sc_event_try_emit (thread : Nat) (evt : sc_event) : Except Fault (Bool × sc_event) :=
  match sc_event_lock thread evt with
  | .error f => .error f
  | .ok e =>
    if destroy_requested e then
      .ok (false, (sc_event_unlock thread e).2)
    else if e.ref_count < SC_EVENT_REF_COUNT_MASK then
      .ok (true, (sc_event_unlock thread { e with ref_count := (e.ref_count + 1) % 2 ^ 32 }).2)
    else .error .assertion

/-- Source `sc_event_unref` (lines 113-120), on the record the pointer names; the
result is always `SC_FALSE`. -/
def sc_event_unref (thread : Nat) (evt : sc_event) : Except Fault (Bool × sc_event) :=
  match sc_event_lock thread evt with
  | .error f => .error f
  | .ok e =>
    .ok (false,
      (sc_event_unlock thread { e with ref_count := (e.ref_count + 2 ^ 32 - 1) % 2 ^ 32 }).2)

/-- Apply `_sc_event_try_emit` through a pointer. -/
def State.try_emit (s : State) (thread : Nat) (evt : Nat) : Except Fault (State × Bool) :=
  match _sc_event_try_emit thread (s.heap evt) with
  | .error f => .error f
  | .ok (res, e) => .ok (s.store evt e, res)

/-- Apply `sc_event_unref` through a pointer. -/
def State.unref (s : State) (thread : Nat) (evt : Nat) : Except Fault (State × Bool) :=
  match sc_event_unref thread (s.heap evt) with
  | .error f => .error f
  | .ok (res, e) => .ok (s.store evt e, res)

/-! ## Register -/

/-- The body shared by `sc_event_new` and `sc_event_new_ex` after the callback
assertion; the two differ only in the slot that receives the callback. -/
def sc_event_new_body (x : Extern) (s : State) (ctx : sc_memory_context)
    (el type data callback callback_ex delete_callback : Nat) : State × Option Nat :=
  if SC_ADDR_IS_EMPTY el then (s, none)
  else
    match x.sc_storage_get_access_levels ctx el with
    | none => (s, none)
    | some levels =>
      if !x.sc_access_lvl_check_read ctx.access_levels levels then (s, none)
      else
        let s := { s with log := s.log ++ [Ext.sc_storage_element_ref el] }
        let event := s.brk
        let s := { s with brk := s.brk + 1 }
        let s := s.store event
          { g_new0 with
            element := el, type := type, callback := callback, callback_ex := callback_ex,
            delete_callback := delete_callback, data := data, thread_lock := 0,
            ref_count := 1, access_levels := ctx.access_levels }
        match insert_event_into_table s event with
        | (s, .SC_RESULT_OK) => (s, some event)
        | (s, _) => ({ s with log := s.log ++ [Ext.g_free event] }, none)

/-- Source `sc_event_new` (lines 123-155): the callback goes to the slot `callback`. -/
def sc_event_new (x : Extern) (s : State) (ctx : sc_memory_context)
    (el type data callback delete_callback : Nat) : Except Fault (State × Option Nat) :=
  if callback = 0 then .error .assertion
  else .ok (sc_event_new_body x s ctx el type data callback 0 delete_callback)

/-- Source `sc_event_new_ex` (lines 157-189): the callback goes to the slot
`callback_ex`. -/
def sc_event_new_ex (x : Extern) (s : State) (ctx : sc_memory_context)
    (el type data callback delete_callback : Nat) : Except Fault (State × Option Nat) :=
  if callback = 0 then .error .assertion
  else .ok (sc_event_new_body x s ctx el type data 0 callback delete_callback)

/-! ## Destroy -/

/-- The part of `sc_event_destroy` before the drain loop (lock, flag test, removal
from the table, marking, release of the implicit reference). The second
component is `some r` when the function returned `r` there, and `none` when it
goes on to the drain loop. -/
def sc_event_destroy_mark (thread : Nat) (s : State) (evt : Nat) :
    Except Fault (State × Option sc_result) :=
  match sc_event_lock thread (s.heap evt) with
  | .error f => .error f
  | .ok e =>
    let s := s.store evt e
    if destroy_requested (s.heap evt) then
      let s := s.store evt (sc_event_unlock thread (s.heap evt)).2
      match s.unref thread evt with
      | .error f => .error f
      | .ok (s, _) => .ok (s, none)
    else
      match remove_event_from_table s evt with
      | .error f => .error f
      | .ok (s, r) =>
        if r ≠ .SC_RESULT_OK then
          .ok (s.store evt (sc_event_unlock thread (s.heap evt)).2, some .SC_RESULT_ERROR)
        else
          let e := s.heap evt
          let e := { e with ref_count := e.ref_count ||| SC_EVENT_REQUEST_DESTROY }
          let e := { e with callback := 0, callback_ex := 0, delete_callback := 0 }
          let s := s.store evt (sc_event_unlock thread e).2
          match s.unref thread evt with
          | .error f => .error f
          | .ok (s, _) => .ok (s, none)

/-- One pass of the drain loop of `sc_event_destroy`; the second component tells
whether the loop was left (the subscription was freed). -/
def sc_event_destroy_poll (thread : Nat) (s : State) (evt : Nat) :
    Except Fault (State × Bool) :=
  match sc_event_lock thread (s.heap evt) with
  | .error f => .error f
  | .ok e =>
    let s := s.store evt e
    let refs := (s.heap evt).ref_count
    if refs = SC_EVENT_REQUEST_DESTROY then
      let s := { s with log := s.log ++ [Ext.sc_storage_element_unref (s.heap evt).element] }
      let s :=
        if (s.heap evt).delete_callback ≠ 0 then
          { s with log := s.log ++ [Ext.delete_callback (s.heap evt).delete_callback evt] }
        else s
      let s := s.store evt (sc_event_unlock thread (s.heap evt)).2
      .ok ({ s with log := s.log ++ [Ext.g_free evt] }, true)
    else
      .ok (s.store evt (sc_event_unlock thread (s.heap evt)).2, false)

/-- The drain loop, run for at most `fuel` passes with no other thread stepping in
between; `none` when it is still waiting after that many passes. -/
def sc_event_destroy_drain (thread : Nat) : Nat → State → Nat → Except Fault (State × Option sc_result)
  | 0, s, _ => .ok (s, none)
  | fuel + 1, s, evt =>
    match sc_event_destroy_poll thread s evt with
    | .error f => .error f
    | .ok (s, true) => .ok (s, some .SC_RESULT_OK)
    | .ok (s, false) => sc_event_destroy_drain thread fuel s evt

/-- Source `sc_event_destroy` (lines 191-238), with the drain loop bounded by `fuel`. -/
def sc_event_destroy (fuel : Nat) (thread : Nat) (s : State) (evt : Nat) :
    Except Fault (State × Option sc_result) :=
  match sc_event_destroy_mark thread s evt with
  | .error f => .error f
  | .ok (s, some r) => .ok (s, some r)
  | .ok (s, none) => sc_event_destroy_drain thread fuel s evt

/-! ## Element deletion -/

/-- The loop of `sc_event_notify_element_deleted` over the detached list. -/
def notify_mark (thread : Nat) : List Nat → State → Except Fault State
  | [], s => .ok s
  | evt :: rest, s =>
    match sc_event_lock thread (s.heap evt) with
    | .error f => .error f
    | .ok e =>
      let e := { e with ref_count := e.ref_count ||| SC_EVENT_REQUEST_DESTROY }
      notify_mark thread rest (s.store evt (sc_event_unlock thread e).2)

/-- Source `sc_event_notify_element_deleted` (lines 240-276). -/
def sc_event_notify_element_deleted (thread : Nat) (s : State) (element : Nat) :
    Except Fault (State × sc_result) :=
  match s.events_table with
  | none => .ok (s, .SC_RESULT_OK)
  | some table =>
    let element_events_list := g_hash_table_lookup table element
    if element_events_list ≠ [] then
      let s := { s with events_table := some (g_hash_table_remove table element) }
      match notify_mark thread element_events_list s with
      | .error f => .error f
      | .ok s => .ok (s, .SC_RESULT_OK)
    else .ok (s, .SC_RESULT_OK)

/-! ## Emit -/

/-- The loop of `sc_event_emit` over the list found for the element. -/
def emit_loop (x : Extern) (thread el_access type edge other_el : Nat) :
    List Nat → State → Except Fault State
  | [], s => .ok s
  | event :: rest, s =>
    if (s.heap event).type = type
        ∧ x.sc_access_lvl_check_read (s.heap event).access_levels el_access = true then
      match s.try_emit thread event with
      | .error f => .error f
      | .ok (s, true) =>
        if (s.heap event).callback ≠ 0 ∨ (s.heap event).callback_ex ≠ 0 then
          emit_loop x thread el_access type edge other_el rest
            { s with event_queue := s.event_queue ++ [(event, edge, other_el)] }
        else .error .assertion
      | .ok (s, false) => emit_loop x thread el_access type edge other_el rest s
    else emit_loop x thread el_access type edge other_el rest s

/-- Source `sc_event_emit` (lines 278-314). -/
def sc_event_emit (x : Extern) (thread : Nat) (s : State)
    (el el_access type edge other_el : Nat) : Except Fault (State × sc_result) :=
  if SC_ADDR_IS_EMPTY el then .error .assertion
  else
    match s.events_table with
    | none => .ok (s, .SC_RESULT_OK)
    | some table =>
      match emit_loop x thread el_access type edge other_el (g_hash_table_lookup table el) s with
      | .error f => .error f
      | .ok s => .ok (s, .SC_RESULT_OK)

/-! ## Notions used to state the properties -/

/-- The subscriptions an emit claims, in the words of the contract: the type
equals the change kind, the stored access levels pass the read check against
the access level of the change, and the destroy-requested flag is unset. -/
def emit_claims (x : Extern) (s : State) (el_access type : Nat) (p : Nat) : Bool :=
  decide ((s.heap p).type = type)
    && x.sc_access_lvl_check_read (s.heap p).access_levels el_access
    && !destroy_requested (s.heap p)

/-! ## Concrete inputs -/

/-- Collaborators that grant every access: every element has access level 0 and
the read check always passes. -/
def X_open : Extern :=
  { sc_storage_get_access_levels := fun _ _ => some 0,
    sc_access_lvl_check_read := fun _ _ => true }

/-- One subscription at address 1 on element 5, of type 1, with callback 7, lock
free and the given `ref_count`; it is the only entry of the table. -/
def s_one (rc : Nat) : State :=
  { heap := fun q =>
      if q = 1 then { g_new0 with element := 5, type := 1, callback := 7, ref_count := rc }
      else g_new0,
    brk := 2,
    events_table := some [(5, [1])],
    event_queue := [],
    log := [Ext.sc_storage_element_ref 5] }

/-- The record after `ref_count |= SC_EVENT_REQUEST_DESTROY`. -/
def request_destroy (e : sc_event) : sc_event :=
  { e with ref_count := e.ref_count ||| SC_EVENT_REQUEST_DESTROY }

/-- The state `s_one 1` with a second record at address 2 that watches element 5
as well but is not in the table. -/
def s_two : State :=
  { (s_one 1).store 2 { g_new0 with element := 5, type := 1, callback := 7, ref_count := 1 } with
    brk := 3 }

/-! ## Interleavings of the atomic steps -/

/-- The global state together with the list of subscriptions whose
`sc_event_destroy` has run up to the drain loop, that is, has released the
implicit reference. -/
structure Sys where
  st : State
  destroyed : List Nat

/-- Nothing registered, no destroy under way. -/
def Sys.init : Sys := { st := State.init, destroyed := [] }

/-- The atomic steps of the threads working on the registry. Modelled from the
spec: the delivery queue itself (`sc_event_queue.c`) is missing; `release` is
its worker finishing the delivery at position `i` of the queue, which takes the
delivery off the queue and calls `sc_event_unref` once. -/
inductive Action where
  | register (ctx : sc_memory_context) (el type data callback delete_callback : Nat)
  | register_ex (ctx : sc_memory_context) (el type data callback delete_callback : Nat)
  | emit (thread el el_access type edge other_el : Nat)
  | release (thread i : Nat)
  | notify (thread element : Nat)
  | destroy_mark (thread evt : Nat)
  | destroy_poll (thread evt : Nat)

/-- One atomic step; `none` when the step cannot be taken in this state (an
assertion fails, a lock is owned by another thread, the delivery does not
exist) or is excluded: `sc_event_destroy` is called on subscriptions returned
by a registration, at most once each, and its drain loop runs after its first
part and stops once the subscription is freed. A call of `sc_event_destroy`
that returns `SC_RESULT_ERROR` before marking is not counted. -/
def step (x : Extern) (σ : Sys) : Action → Option Sys
  | .register ctx el type data callback delete_callback =>
    match sc_event_new x σ.st ctx el type data callback delete_callback with
    | .error _ => none
    | .ok (s, _) => some { σ with st := s }
  | .register_ex ctx el type data callback delete_callback =>
    match sc_event_new_ex x σ.st ctx el type data callback delete_callback with
    | .error _ => none
    | .ok (s, _) => some { σ with st := s }
  | .emit thread el el_access type edge other_el =>
    match sc_event_emit x thread σ.st el el_access type edge other_el with
    | .error _ => none
    | .ok (s, _) => some { σ with st := s }
  | .release thread i =>
    match σ.st.event_queue[i]? with
    | none => none
    | some d =>
      match σ.st.unref thread d.1 with
      | .error _ => none
      | .ok (s, _) => some { σ with st := { s with event_queue := s.event_queue.eraseIdx i } }
  | .notify thread element =>
    match sc_event_notify_element_deleted thread σ.st element with
    | .error _ => none
    | .ok (s, _) => some { σ with st := s }
  | .destroy_mark thread evt =>
    if 0 < evt ∧ evt < σ.st.brk ∧ evt ∉ σ.destroyed then
      match sc_event_destroy_mark thread σ.st evt with
      | .error _ => none
      | .ok (s, none) => some { st := s, destroyed := evt :: σ.destroyed }
      | .ok (s, some _) => some { σ with st := s }
    else none
  | .destroy_poll thread evt =>
    if evt ∈ σ.destroyed ∧ Ext.g_free evt ∉ σ.st.log then
      match sc_event_destroy_poll thread σ.st evt with
      | .error _ => none
      | .ok (s, _) => some { σ with st := s }
    else none

/-- A sequence of atomic steps. -/
def run (x : Extern) : Sys → List Action → Option Sys
  | σ, [] => some σ
  | σ, a :: rest =>
    match step x σ a with
    | none => none
    | some σ1 => run x σ1 rest

/-- Number of deliveries of a subscription that were enqueued and not yet
released. -/
def pending (s : State) (p : Nat) : Nat :=
  s.event_queue.countP (fun d => d.1 = p)

/-- The invariant of the interleavings; `P` is any set of subscriptions already
marked for destruction. -/
structure Inv (P : Nat → Prop) (σ : Sys) : Prop where
  brk_pos : 0 < σ.st.brk
  lock : ∀ p, 0 < p → p < σ.st.brk → (σ.st.heap p).thread_lock = 0
  range : ∀ p, 0 < p → p < σ.st.brk → (σ.st.heap p).ref_count < 2 ^ 32
  count : ∀ p, 0 < p → p < σ.st.brk →
    (σ.st.heap p).ref_count % 2 ^ 31 = (if p ∈ σ.destroyed then 0 else 1) + pending σ.st p
  listed : ∀ p, 0 < p → p < σ.st.brk → destroy_requested (σ.st.heap p) = false →
    p ∈ σ.st.lookup (σ.st.heap p).element
  table : ∀ k p, p ∈ σ.st.lookup k →
    0 < p ∧ p < σ.st.brk ∧ (σ.st.heap p).element = k
      ∧ destroy_requested (σ.st.heap p) = false
  nodup : ∀ k, (σ.st.lookup k).Nodup
  gone : ∀ p, p ∈ σ.destroyed →
    0 < p ∧ p < σ.st.brk ∧ destroy_requested (σ.st.heap p) = true
  queued : ∀ d, d ∈ σ.st.event_queue → 0 < d.1 ∧ d.1 < σ.st.brk
  callbacks : ∀ p, 0 < p → p < σ.st.brk → destroy_requested (σ.st.heap p) = false →
    ((σ.st.heap p).callback ≠ 0 ∧ (σ.st.heap p).callback_ex = 0)
      ∨ ((σ.st.heap p).callback = 0 ∧ (σ.st.heap p).callback_ex ≠ 0)
  sticky : ∀ p, P p → 0 < p ∧ p < σ.st.brk ∧ destroy_requested (σ.st.heap p) = true

/-- A run of atomic steps: two registrations on element 5, an emit that claims
both subscriptions, the first part of the destroy of the first subscription, the
release of its delivery and a pass of the drain loop. -/
def demo_acts : List Action :=
  [ .register ⟨1, 3⟩ 5 1 0 7 9,
    .register_ex ⟨1, 3⟩ 5 1 0 8 0,
    .emit 2 5 0 1 21 22,
    .destroy_mark 3 1,
    .release 4 0,
    .destroy_poll 3 1 ]

/-- The first four steps of `demo_acts`. -/
def demo_acts_marked : List Action := demo_acts.take 4

/-- The state a run ends in, `Sys.init` when a step of it cannot be taken. -/
def run_result (x : Extern) (acts : List Action) : Sys :=
  match run x Sys.init acts with
  | some σ => σ
  | none => Sys.init

end ScEvent

/-! ## Blocking wait (`sc_wait.hpp`)

The repository holds two versions of the header, `sc-memory/sc_wait.hpp` and the
older `cpp/sc_wait.hpp`; the definitions of the older one are in the namespace
`Waiting.cpp`. Time is the monotonic clock of GLib in microseconds. What the
other threads do while `Wait` sleeps is given by a list of wake-ups, one per call
of `g_cond_wait_until` that returns before the end time. -/

namespace Waiting

/-- The state of `ScWait::WaiterImpl` that the methods read and write; the mutex
and the condition variable only serialise the accesses. -/
structure WaiterImpl where
  m_isResolved : Bool
  deriving DecidableEq, Repr

/-- The constructor of `WaiterImpl`: not resolved. -/
def WaiterImpl.init : WaiterImpl := { m_isResolved := false }

/-- Source `WaiterImpl::Resolve`: sets the flag (and signals the condition). -/
def WaiterImpl.Resolve (_w : WaiterImpl) : WaiterImpl := { m_isResolved := true }

/-- One return of `g_cond_wait_until` caused by a signal or a spurious wake-up: the
clock value at that moment and whether another thread ran `Resolve` before it. -/
structure Wake where
  time : Int
  resolved : Bool
  deriving DecidableEq, Repr

/-- The loop `while (!m_isResolved) { if (!g_cond_wait_until(..., endTime)) return
false; } return true;`. A call of `g_cond_wait_until` returns TRUE when the next
wake-up comes before the end time and FALSE (time-out) otherwise, also when
nobody ever wakes the waiter. The third component counts the calls of
`g_cond_wait_until`, that is, how often the thread blocked. -/
def WaiterImpl.wait_loop (endTime : Int) : List Wake → WaiterImpl → Bool × WaiterImpl × Nat
  | [], w => if w.m_isResolved then (true, w, 0) else (false, w, 1)
  | wk :: rest, w =>
    if w.m_isResolved then (true, w, 0)
    else if wk.time < endTime then
      let r := WaiterImpl.wait_loop endTime rest
        { w with m_isResolved := w.m_isResolved || wk.resolved }
      (r.1, r.2.1, r.2.2 + 1)
    else (false, w, 1)

/-- The constant `G_TIME_SPAN_MILLISECOND` of GLib. -/
def G_TIME_SPAN_MILLISECOND : Int := 1000

/-- Source `WaiterImpl::Wait(uint32_t timeout_ms)` of `sc-memory/sc_wait.hpp`; `now`
is the value of `g_get_monotonic_time()`. -/
def WaiterImpl.Wait (w : WaiterImpl) (now : Int) (wakes : List Wake) (timeout_ms : Nat) :
    Bool × WaiterImpl × Nat :=
  let endTime := now + ((timeout_ms % 2 ^ 32 : Nat) : Int) * G_TIME_SPAN_MILLISECOND
  WaiterImpl.wait_loop endTime wakes w

/-- What a run of `ScWait::Wait` does that can be seen from outside, in order. -/
inductive Ev where
  | delegate
  | cond_wait
  deriving DecidableEq, Repr

/-- The class `ScWait` of `sc-memory/sc_wait.hpp`. The wait-start delegate is a
`std::function<void(void)>`; it can reach the private waiter only through the
methods of the class, and it is given here by what it does to the waiter. -/
structure ScWait where
  m_waiterImpl : WaiterImpl
  m_waitStartDelegate : Option (WaiterImpl → WaiterImpl)

/-- Source `ScWait::Resolve`. -/
def ScWait.Resolve (w : ScWait) : ScWait :=
  { w with m_waiterImpl := w.m_waiterImpl.Resolve }

/-- Source `ScWait::SetOnWaitStartDelegate`. -/
def ScWait.SetOnWaitStartDelegate (w : ScWait) (startDelegate : WaiterImpl → WaiterImpl) :
    ScWait :=
  { w with m_waitStartDelegate := some startDelegate }

/-- Source `ScWait::Wait` of `sc-memory/sc_wait.hpp` (lines 84-92): the delegate, when
set, runs first, then `SC_ASSERT(timeout_ms < 60000, ...)`, then the wait of the
waiter. Modelled from the spec: the macro `SC_ASSERT` is declared in a missing
header; a failing assertion stops the call. The first component lists what
happened, the delegate call and each blocking call, in order. -/
def ScWait.Wait (w : ScWait) (now : Int) (wakes : List Wake) (timeout_ms : Nat) :
    List Ev × Except ScEvent.Fault (Bool × ScWait) :=
  let started : List Ev × ScWait :=
    match w.m_waitStartDelegate with
    | some d => ([Ev.delegate], { w with m_waiterImpl := d w.m_waiterImpl })
    | none => ([], w)
  if timeout_ms < 60000 then
    let r := started.2.m_waiterImpl.Wait now wakes timeout_ms
    (started.1 ++ List.replicate r.2.2 Ev.cond_wait,
      .ok (r.1, { started.2 with m_waiterImpl := r.2.1 }))
  else (started.1, .error .assertion)

/-- The default argument of `ScWait::Wait`: `uint32_t timeout_ms = 5000`. -/
def ScWait.Wait_default_timeout_ms : Nat := 5000

/-- The call `Wait()` with the default argument. -/
def ScWait.Wait_default (w : ScWait) (now : Int) (wakes : List Wake) :
    List Ev × Except ScEvent.Fault (Bool × ScWait) :=
  w.Wait now wakes ScWait.Wait_default_timeout_ms

/-- Source `ScWaitEvent::OnEvent` (lines 119-127), with the virtual `OnEventImpl` as
a parameter: the result tells the event whether the delivery was consumed. -/
def ScWaitEvent.OnEvent (OnEventImpl : Nat → Nat → Nat → Bool) (w : ScWait)
    (listenAddr edgeAddr otherAddr : Nat) : Bool × ScWait :=
  if OnEventImpl listenAddr edgeAddr otherAddr then (true, w.Resolve)
  else (false, w)

/-- The class `ScWaitCondition`: a waiter and the check function. -/
structure ScWaitCondition where
  base : ScWait
  m_checkFunc : Nat → Nat → Nat → Bool

/-- The constructor of `ScWaitCondition`: a fresh waiter with no delegate. -/
def ScWaitCondition.init (func : Nat → Nat → Nat → Bool) : ScWaitCondition :=
  { base := { m_waiterImpl := WaiterImpl.init, m_waitStartDelegate := none },
    m_checkFunc := func }

/-- Source `ScWaitCondition::OnEventImpl` (lines 150-153). -/
def ScWaitCondition.OnEventImpl (c : ScWaitCondition) (listenAddr edgeAddr otherAddr : Nat) :
    Bool :=
  c.m_checkFunc listenAddr edgeAddr otherAddr

/-- The callback bound in the constructor of `ScWaitEvent`, for a condition waiter:
`OnEvent` with the `OnEventImpl` of `ScWaitCondition`. -/
def ScWaitCondition.OnEvent (c : ScWaitCondition) (listenAddr edgeAddr otherAddr : Nat) :
    Bool × ScWaitCondition :=
  let r := ScWaitEvent.OnEvent c.OnEventImpl c.base listenAddr edgeAddr otherAddr
  (r.1, { c with base := r.2 })

/-- The deliveries of a list of events `(listenAddr, edgeAddr, otherAddr)`, one call
of the callback each, in order: the reported results and the waiter afterwards. -/
def ScWaitCondition.deliver : ScWaitCondition → List (Nat × Nat × Nat) →
    List Bool × ScWaitCondition
  | c, [] => ([], c)
  | c, d :: rest =>
    let r := c.OnEvent d.1 d.2.1 d.2.2
    let t := ScWaitCondition.deliver r.2 rest
    (r.1 :: t.1, t.2)

namespace cpp

/-- The value of a `gint64` after an unsigned 64-bit computation is stored in it. -/
def to_gint64 (x : Int) : Int := (x + 2 ^ 63) % 2 ^ 64 - 2 ^ 63

/-- Source `WaiterImpl::Wait(uint64_t timeout_ms)` of `cpp/sc_wait.hpp` (lines 47-64):
the same loop; the end time is computed in unsigned 64-bit arithmetic. -/
def WaiterImpl.Wait (w : Waiting.WaiterImpl) (now : Int) (wakes : List Wake)
    (timeout_ms : Nat) : Bool × Waiting.WaiterImpl × Nat :=
  let endTime := to_gint64 (now + ((timeout_ms % 2 ^ 64 : Nat) : Int) * G_TIME_SPAN_MILLISECOND)
  Waiting.WaiterImpl.wait_loop endTime wakes w

/-- The class template `ScWait` of `cpp/sc_wait.hpp`: the event and the waiter; the
event is the subscription of `sc_event.c` and is left out. -/
structure ScWait where
  mWaiterImpl : Waiting.WaiterImpl
  deriving DecidableEq, Repr

/-- Source `ScWait::Wait` of `cpp/sc_wait.hpp` (lines 87-90). -/
def ScWait.Wait (w : ScWait) (now : Int) (wakes : List Wake) (timeout_ms : Nat) :
    Bool × ScWait × Nat :=
  let r := WaiterImpl.Wait w.mWaiterImpl now wakes timeout_ms
  (r.1, { w with mWaiterImpl := r.2.1 }, r.2.2)

/-- Source `ScWait::OnEvent` of `cpp/sc_wait.hpp` (lines 93-101), with the virtual
`OnEventImpl` as a parameter. -/
def ScWait.OnEvent (OnEventImpl : Nat → Nat → Nat → Bool) (w : ScWait)
    (listenAddr edgeAddr otherAddr : Nat) : Bool × ScWait :=
  if OnEventImpl listenAddr edgeAddr otherAddr then
    (true, { w with mWaiterImpl := w.mWaiterImpl.Resolve })
  else (false, w)

/-- The class `ScWaitCondition` of `cpp/sc_wait.hpp`. -/
structure ScWaitCondition where
  base : ScWait
  mCheckFunc : Nat → Nat → Nat → Bool

/-- The constructor: a fresh waiter. -/
def ScWaitCondition.init (func : Nat → Nat → Nat → Bool) : ScWaitCondition :=
  { base := { mWaiterImpl := Waiting.WaiterImpl.init }, mCheckFunc := func }

/-- Source `ScWaitCondition::OnEventImpl` of `cpp/sc_wait.hpp` (lines 125-128). -/
def ScWaitCondition.OnEventImpl (c : ScWaitCondition) (listenAddr edgeAddr otherAddr : Nat) :
    Bool :=
  c.mCheckFunc listenAddr edgeAddr otherAddr

/-- The callback bound in the constructor of `ScWait`, for a condition waiter. -/
def ScWaitCondition.OnEvent (c : ScWaitCondition) (listenAddr edgeAddr otherAddr : Nat) :
    Bool × ScWaitCondition :=
  let r := ScWait.OnEvent c.OnEventImpl c.base listenAddr edgeAddr otherAddr
  (r.1, { c with base := r.2 })

/-- The deliveries of a list of events, one call of the callback each, in order. -/
def ScWaitCondition.deliver : ScWaitCondition → List (Nat × Nat × Nat) →
    List Bool × ScWaitCondition
  | c, [] => ([], c)
  | c, d :: rest =>
    let r := c.OnEvent d.1 d.2.1 d.2.2
    let t := ScWaitCondition.deliver r.2 rest
    (r.1 :: t.1, t.2)

end cpp

end Waiting

namespace ScEvent

/-! # Properties

From here on the file holds theorems only. -/

/-! ## Arithmetic of the flag bit -/

theorem and_flag_ne_zero_iff (x : Nat) : x &&& 2 ^ 31 ≠ 0 ↔ x.testBit 31 = true := by
  constructor
  · intro h
    by_contra hb
    apply h
    apply Nat.eq_of_testBit_eq
    intro i
    rw [Nat.testBit_and, Nat.testBit_two_pow, Nat.zero_testBit]
    by_cases hi : 31 = i
    · subst hi; simp only [Bool.not_eq_true] at hb; rw [hb]; rfl
    · rw [decide_eq_false hi, Bool.and_false]
  · intro hb h0
    have h1 : (x &&& 2 ^ 31).testBit 31 = true := by
      rw [Nat.testBit_and, Nat.testBit_two_pow, hb]; rfl
    rw [h0, Nat.zero_testBit] at h1
    exact Bool.noConfusion h1

theorem destroy_requested_iff_testBit (e : sc_event) :
    destroy_requested e = true ↔ e.ref_count.testBit 31 = true := by
  unfold destroy_requested SC_EVENT_REQUEST_DESTROY
  rw [bne_iff_ne]
  exact and_flag_ne_zero_iff _

theorem destroy_requested_iff_ge (e : sc_event) (h : e.ref_count < 2 ^ 32) :
    destroy_requested e = true ↔ 2 ^ 31 ≤ e.ref_count := by
  rw [destroy_requested_iff_testBit, Nat.testBit_to_div_mod]
  simp only [decide_eq_true_eq]
  omega

theorem live_count_eq_mod (e : sc_event) : live_count e = e.ref_count % 2 ^ 31 := by
  unfold live_count SC_EVENT_REF_COUNT_MASK
  exact Nat.and_pow_two_sub_one_eq_mod _ 31

theorem or_flag_testBit (x : Nat) : (x ||| 2 ^ 31).testBit 31 = true := by
  rw [Nat.testBit_or, Nat.testBit_two_pow]; simp

theorem or_flag_mod (x : Nat) : (x ||| 2 ^ 31) % 2 ^ 31 = x % 2 ^ 31 := by
  apply Nat.eq_of_testBit_eq
  intro i
  rw [Nat.testBit_mod_two_pow, Nat.testBit_mod_two_pow, Nat.testBit_or, Nat.testBit_two_pow]
  by_cases hi : i < 31
  · have : ¬ 31 = i := by omega
    rw [decide_eq_false this, Bool.or_false]
  · rw [decide_eq_false hi, Bool.false_and, Bool.false_and]

theorem or_flag_lt (x : Nat) (h : x < 2 ^ 32) : x ||| 2 ^ 31 < 2 ^ 32 :=
  Nat.or_lt_two_pow h (by norm_num)

theorem or_flag_eq (x : Nat) (h : x < 2 ^ 32) : x ||| 2 ^ 31 = 2 ^ 31 + x % 2 ^ 31 := by
  have h1 := or_flag_mod x
  have h2 := or_flag_lt x h
  have h3 : 2 ^ 31 ≤ x ||| 2 ^ 31 := Nat.testBit_implies_ge (or_flag_testBit x)
  generalize x ||| 2 ^ 31 = y at h1 h2 h3 ⊢
  omega

/-! ## The lock, taken and released by one thread -/

theorem lock_free (thread : Nat) (e : sc_event) (h : e.thread_lock = 0) :
    sc_event_lock thread e = .ok { e with thread_lock := thread } := by
  unfold sc_event_lock
  by_cases ht : thread = 0
  · subst ht; rw [if_pos h]; cases e; simp_all
  · rw [if_neg (by omega), if_neg (by omega)]

theorem unlock_after_lock (thread : Nat) (e : sc_event) (h : e.thread_lock = 0) :
    (sc_event_unlock thread { e with thread_lock := thread }).1 = false
      ∧ (sc_event_unlock thread { e with thread_lock := thread }).2 = e := by
  cases e
  simp_all [sc_event_unlock]

theorem try_emit_eq (thread : Nat) (e : sc_event) (h : e.thread_lock = 0) :
    _sc_event_try_emit thread e =
      if destroy_requested e then .ok (false, e)
      else if e.ref_count < SC_EVENT_REF_COUNT_MASK then
        .ok (true, { e with ref_count := (e.ref_count + 1) % 2 ^ 32 })
      else .error .assertion := by
  unfold _sc_event_try_emit
  rw [lock_free thread e h]
  obtain ⟨a1, a2, a3, a4, a5, a6, a7, a8, a9⟩ := e
  simp only at h
  subst h
  rfl

theorem unref_eq (thread : Nat) (e : sc_event) (h : e.thread_lock = 0) :
    sc_event_unref thread e =
      .ok (false, { e with ref_count := (e.ref_count + 2 ^ 32 - 1) % 2 ^ 32 }) := by
  unfold sc_event_unref
  rw [lock_free thread e h]
  obtain ⟨a1, a2, a3, a4, a5, a6, a7, a8, a9⟩ := e
  simp only at h
  subst h
  rfl

theorem try_emit_flagged (thread : Nat) (e : sc_event) (h : e.thread_lock = 0)
    (hd : destroy_requested e = true) : _sc_event_try_emit thread e = .ok (false, e) := by
  rw [try_emit_eq thread e h, if_pos hd]

theorem try_emit_claim (thread : Nat) (e : sc_event) (h : e.thread_lock = 0)
    (hd : destroy_requested e = false) (hm : e.ref_count < 2 ^ 31 - 1) :
    _sc_event_try_emit thread e = .ok (true, { e with ref_count := e.ref_count + 1 }) := by
  have hmod : (e.ref_count + 1) % 2 ^ 32 = e.ref_count + 1 :=
    Nat.mod_eq_of_lt (by omega)
  rw [try_emit_eq thread e h, if_neg (by rw [hd]; exact Bool.false_ne_true),
    if_pos (by unfold SC_EVENT_REF_COUNT_MASK; exact hm), hmod]

theorem try_emit_overflow (thread : Nat) (e : sc_event) (h : e.thread_lock = 0)
    (hd : destroy_requested e = false) (hm : ¬ e.ref_count < 2 ^ 31 - 1) :
    _sc_event_try_emit thread e = .error .assertion := by
  rw [try_emit_eq thread e h, if_neg (by rw [hd]; exact Bool.false_ne_true),
    if_neg (by unfold SC_EVENT_REF_COUNT_MASK; exact hm)]

theorem destroy_requested_false_of_lt (e : sc_event) (h : e.ref_count < 2 ^ 31) :
    destroy_requested e = false := by
  cases hd : destroy_requested e
  · rfl
  · have := (destroy_requested_iff_ge e (by omega)).mp hd
    omega

theorem lt_of_destroy_requested_false (e : sc_event) (h : e.ref_count < 2 ^ 32)
    (hd : destroy_requested e = false) : e.ref_count < 2 ^ 31 := by
  by_contra hc
  have := (destroy_requested_iff_ge e h).mpr (by omega)
  rw [hd] at this
  exact Bool.false_ne_true this

/-! ## The hash table -/

theorem lookup_insert_self (t : GHashTable) (k : Nat) (v : List Nat) :
    g_hash_table_lookup (g_hash_table_insert t k v) k = v := by
  induction t with
  | nil => simp [g_hash_table_insert, g_hash_table_lookup]
  | cons e t ih =>
    obtain ⟨k1, v1⟩ := e
    by_cases h : k1 = k
    · simp [g_hash_table_insert, g_hash_table_lookup, h]
    · simp [g_hash_table_insert, g_hash_table_lookup, h, ih]

theorem lookup_insert_ne (t : GHashTable) (k k2 : Nat) (v : List Nat) (hk : k2 ≠ k) :
    g_hash_table_lookup (g_hash_table_insert t k v) k2 = g_hash_table_lookup t k2 := by
  have hk2 : ¬ k = k2 := fun h => hk h.symm
  induction t with
  | nil => simp [g_hash_table_insert, g_hash_table_lookup, hk2]
  | cons e t ih =>
    obtain ⟨k1, v1⟩ := e
    by_cases h : k1 = k
    · subst h
      simp [g_hash_table_insert, g_hash_table_lookup, hk2]
    · by_cases h2 : k1 = k2
      · subst h2
        simp [g_hash_table_insert, g_hash_table_lookup, hk]
      · simp [g_hash_table_insert, g_hash_table_lookup, h, h2, ih]

theorem lookup_remove_self (t : GHashTable) (k : Nat) :
    g_hash_table_lookup (g_hash_table_remove t k) k = [] := by
  induction t with
  | nil => simp [g_hash_table_remove, g_hash_table_lookup]
  | cons e t ih =>
    obtain ⟨k1, v1⟩ := e
    unfold g_hash_table_remove at ih ⊢
    by_cases h : k1 = k
    · simp [List.filter_cons, h]
      simpa using ih
    · simp [List.filter_cons, h, g_hash_table_lookup]
      simpa using ih

theorem lookup_remove_ne (t : GHashTable) (k k2 : Nat) (hk : k2 ≠ k) :
    g_hash_table_lookup (g_hash_table_remove t k) k2 = g_hash_table_lookup t k2 := by
  have hk2 : ¬ k = k2 := fun h => hk h.symm
  induction t with
  | nil => simp [g_hash_table_remove, g_hash_table_lookup]
  | cons e t ih =>
    obtain ⟨k1, v1⟩ := e
    unfold g_hash_table_remove at ih ⊢
    by_cases h : k1 = k
    · subst h
      simp [List.filter_cons, g_hash_table_lookup, hk2]
      simpa using ih
    · by_cases h2 : k1 = k2
      · subst h2
        simp [List.filter_cons, hk, g_hash_table_lookup]
      · simp [List.filter_cons, h, h2, g_hash_table_lookup]
        simpa using ih

/-! ## The emit loop, one subscription at a time -/

theorem store_self (s : State) (p : Nat) : s.store p (s.heap p) = s := by
  unfold State.store
  have : (fun q => if q = p then s.heap p else s.heap q) = s.heap := by
    funext q
    by_cases h : q = p
    · rw [if_pos h, h]
    · rw [if_neg h]
  rw [this]

theorem store_heap_self (s : State) (p : Nat) (e : sc_event) : (s.store p e).heap p = e := by
  simp [State.store]

theorem store_heap_ne (s : State) (p q : Nat) (e : sc_event) (h : q ≠ p) :
    (s.store p e).heap q = s.heap q := by
  simp [State.store, h]

theorem emit_claims_congr (x : Extern) (s1 s2 : State) (el_access type p : Nat)
    (h : s1.heap p = s2.heap p) :
    emit_claims x s1 el_access type p = emit_claims x s2 el_access type p := by
  unfold emit_claims
  rw [h]

theorem emit_loop_skip (x : Extern) (thread el_access type edge other_el p : Nat)
    (rest : List Nat) (s : State)
    (h : ¬ ((s.heap p).type = type
      ∧ x.sc_access_lvl_check_read (s.heap p).access_levels el_access = true)) :
    emit_loop x thread el_access type edge other_el (p :: rest) s
      = emit_loop x thread el_access type edge other_el rest s := by
  rw [emit_loop, if_neg h]

theorem emit_loop_flagged (x : Extern) (thread el_access type edge other_el p : Nat)
    (rest : List Nat) (s : State)
    (h : (s.heap p).type = type
      ∧ x.sc_access_lvl_check_read (s.heap p).access_levels el_access = true)
    (hlock : (s.heap p).thread_lock = 0) (hd : destroy_requested (s.heap p) = true) :
    emit_loop x thread el_access type edge other_el (p :: rest) s
      = emit_loop x thread el_access type edge other_el rest s := by
  rw [emit_loop, if_pos h]
  unfold State.try_emit
  rw [try_emit_flagged thread (s.heap p) hlock hd]
  simp only [store_self]

theorem emit_loop_claim (x : Extern) (thread el_access type edge other_el p : Nat)
    (rest : List Nat) (s : State)
    (h : (s.heap p).type = type
      ∧ x.sc_access_lvl_check_read (s.heap p).access_levels el_access = true)
    (hlock : (s.heap p).thread_lock = 0) (hd : destroy_requested (s.heap p) = false)
    (hm : (s.heap p).ref_count < 2 ^ 31 - 1)
    (hcb : (s.heap p).callback ≠ 0 ∨ (s.heap p).callback_ex ≠ 0) :
    emit_loop x thread el_access type edge other_el (p :: rest) s
      = emit_loop x thread el_access type edge other_el rest
          { s.store p { s.heap p with ref_count := (s.heap p).ref_count + 1 } with
            event_queue := s.event_queue ++ [(p, edge, other_el)] } := by
  rw [emit_loop, if_pos h]
  unfold State.try_emit
  rw [try_emit_claim thread (s.heap p) hlock hd hm]
  simp only [store_heap_self]
  rw [if_pos hcb]
  rfl

theorem emit_loop_overflow (x : Extern) (thread el_access type edge other_el p : Nat)
    (rest : List Nat) (s : State)
    (h : (s.heap p).type = type
      ∧ x.sc_access_lvl_check_read (s.heap p).access_levels el_access = true)
    (hlock : (s.heap p).thread_lock = 0) (hd : destroy_requested (s.heap p) = false)
    (hm : ¬ (s.heap p).ref_count < 2 ^ 31 - 1) :
    emit_loop x thread el_access type edge other_el (p :: rest) s = .error .assertion := by
  rw [emit_loop, if_pos h]
  unfold State.try_emit
  rw [try_emit_overflow thread (s.heap p) hlock hd hm]

theorem emit_loop_spec (x : Extern) (thread el_access type edge other_el : Nat)
    (l : List Nat) :
    ∀ s : State, l.Nodup → (∀ p ∈ l, (s.heap p).thread_lock = 0) →
      (∀ p ∈ l, emit_claims x s el_access type p = true →
        (s.heap p).ref_count < 2 ^ 31 - 1
          ∧ ((s.heap p).callback ≠ 0 ∨ (s.heap p).callback_ex ≠ 0)) →
      ∃ s1, emit_loop x thread el_access type edge other_el l s = .ok s1
        ∧ s1.event_queue = s.event_queue
            ++ (l.filter (emit_claims x s el_access type)).map (fun p => (p, edge, other_el))
        ∧ (∀ p, p ∈ l → emit_claims x s el_access type p = true →
            s1.heap p = { s.heap p with ref_count := (s.heap p).ref_count + 1 })
        ∧ (∀ p, ¬ (p ∈ l ∧ emit_claims x s el_access type p = true) → s1.heap p = s.heap p)
        ∧ s1.events_table = s.events_table ∧ s1.log = s.log ∧ s1.brk = s.brk := by
  induction l with
  | nil =>
    intro s _ _ _
    exact ⟨s, rfl, by simp, by simp, by simp, rfl, rfl, rfl⟩
  | cons p rest ih =>
    intro s hnd hlock hready
    have hp : p ∉ rest := (List.nodup_cons.mp hnd).1
    have hnd2 : rest.Nodup := (List.nodup_cons.mp hnd).2
    have hlockp := hlock p (List.mem_cons_self p rest)
    by_cases hc : emit_claims x s el_access type p = true
    · -- the subscription is claimed
      obtain ⟨hm, hcb⟩ := hready p (List.mem_cons_self p rest) hc
      have hc2 := hc
      unfold emit_claims at hc2
      simp only [Bool.and_eq_true, decide_eq_true_eq, Bool.not_eq_true'] at hc2
      obtain ⟨⟨ht, ha⟩, hd⟩ := hc2
      rw [emit_loop_claim x thread el_access type edge other_el p rest s ⟨ht, ha⟩ hlockp hd hm hcb]
      have hheap : ∀ q, q ≠ p →
          ({ s.store p { s.heap p with ref_count := (s.heap p).ref_count + 1 } with
            event_queue := s.event_queue ++ [(p, edge, other_el)] } : State).heap q
            = s.heap q := fun q hq => store_heap_ne s p q _ hq
      have hne : ∀ q ∈ rest, q ≠ p := fun q hq h => hp (h ▸ hq)
      obtain ⟨s1, h1, h2, h3, h4, h5, h6, h7⟩ := ih _ hnd2
        (fun q hq => by rw [hheap q (hne q hq)]; exact hlock q (List.mem_cons_of_mem p hq))
        (fun q hq hcq => by
          rw [emit_claims_congr x _ s el_access type q (hheap q (hne q hq))] at hcq
          rw [hheap q (hne q hq)]
          exact hready q (List.mem_cons_of_mem p hq) hcq)
      have hfilter : rest.filter (emit_claims x _ el_access type)
          = rest.filter (emit_claims x s el_access type) :=
        List.filter_congr (fun q hq =>
          emit_claims_congr x _ s el_access type q (hheap q (hne q hq)))
      refine ⟨s1, h1, ?_, ?_, ?_, h5, h6, h7⟩
      · rw [h2, hfilter, List.filter_cons_of_pos hc]
        simp
      · intro q hq hcq
        by_cases hqp : q = p
        · subst hqp
          rw [h4 q (fun h => hp h.1)]
          exact store_heap_self s q _
        · have hqr : q ∈ rest := by
            rcases List.mem_cons.mp hq with h | h
            · exact absurd h hqp
            · exact h
          rw [h3 q hqr (by rw [emit_claims_congr x _ s el_access type q (hheap q hqp)]; exact hcq),
            hheap q hqp]
      · intro q hq
        have hqp : q ≠ p := fun h => hq ⟨h ▸ List.mem_cons_self p rest, h ▸ hc⟩
        rw [h4 q (fun h => hq ⟨List.mem_cons_of_mem p h.1, by
          rw [← emit_claims_congr x _ s el_access type q (hheap q hqp)]; exact h.2⟩), hheap q hqp]
    · -- the subscription is passed over
      have hstep : emit_loop x thread el_access type edge other_el (p :: rest) s
          = emit_loop x thread el_access type edge other_el rest s := by
        by_cases hmatch : (s.heap p).type = type
            ∧ x.sc_access_lvl_check_read (s.heap p).access_levels el_access = true
        · have hd : destroy_requested (s.heap p) = true := by
            cases hd : destroy_requested (s.heap p)
            · exfalso
              apply hc
              unfold emit_claims
              simp [hmatch.1, hmatch.2, hd]
            · rfl
          exact emit_loop_flagged x thread el_access type edge other_el p rest s hmatch hlockp hd
        · exact emit_loop_skip x thread el_access type edge other_el p rest s hmatch
      rw [hstep]
      obtain ⟨s1, h1, h2, h3, h4, h5, h6, h7⟩ := ih s hnd2
        (fun q hq => hlock q (List.mem_cons_of_mem p hq))
        (fun q hq hcq => hready q (List.mem_cons_of_mem p hq) hcq)
      refine ⟨s1, h1, ?_, ?_, ?_, h5, h6, h7⟩
      · rw [h2, List.filter_cons_of_neg hc]
      · intro q hq hcq
        rcases List.mem_cons.mp hq with h | h
        · exact absurd (h ▸ hcq) hc
        · exact h3 q h hcq
      · intro q hq
        exact h4 q (fun h => hq ⟨List.mem_cons_of_mem p h.1, h.2⟩)

/-- C1 (as amended). For a non-empty element whose registry list names each
subscription once, with every listed lock free, and in which every subscription
the emit claims (type equal to the change kind, stored access levels passing the
read check, destroy-requested flag unset) has a `ref_count` below
`SC_EVENT_REF_COUNT_MASK` and a callback: `sc_event_emit` returns
`SC_RESULT_OK`, appends exactly the claimed subscriptions to the delivery queue
in list order, each with the given `(edge, other_el)`, adds exactly one to the
`ref_count` of each of them, and changes no other subscription, nor the table,
nor anything else; with no list for the element the state is unchanged. -/
theorem sc_event_emit_contract (x : Extern) (thread : Nat) (s : State)
    (el el_access type edge other_el : Nat)
    (hel : SC_ADDR_IS_EMPTY el = false)
    (hnd : (s.lookup el).Nodup)
    (hlock : ∀ p ∈ s.lookup el, (s.heap p).thread_lock = 0)
    (hready : ∀ p ∈ s.lookup el, emit_claims x s el_access type p = true →
      (s.heap p).ref_count < SC_EVENT_REF_COUNT_MASK
        ∧ ((s.heap p).callback ≠ 0 ∨ (s.heap p).callback_ex ≠ 0)) :
    ∃ s1, sc_event_emit x thread s el el_access type edge other_el = .ok (s1, .SC_RESULT_OK)
      ∧ s1.event_queue = s.event_queue
          ++ ((s.lookup el).filter (emit_claims x s el_access type)).map
              (fun p => (p, edge, other_el))
      ∧ (∀ p, p ∈ s.lookup el → emit_claims x s el_access type p = true →
          s1.heap p = { s.heap p with ref_count := (s.heap p).ref_count + 1 })
      ∧ (∀ p, ¬ (p ∈ s.lookup el ∧ emit_claims x s el_access type p = true) →
          s1.heap p = s.heap p)
      ∧ s1.events_table = s.events_table ∧ s1.log = s.log ∧ s1.brk = s.brk
      ∧ (s.lookup el = [] → s1 = s) := by
  unfold sc_event_emit
  rw [hel]
  simp only [Bool.false_eq_true, if_false]
  cases htab : s.events_table with
  | none =>
    have hl : s.lookup el = [] := by unfold State.lookup; rw [htab]
    rw [hl]
    exact ⟨s, rfl, by simp, by simp, by simp, htab, rfl, rfl, fun _ => rfl⟩
  | some table =>
    have hl : s.lookup el = g_hash_table_lookup table el := by unfold State.lookup; rw [htab]
    rw [hl] at hnd hlock hready ⊢
    obtain ⟨s1, h1, h2, h3, h4, h5, h6, h7⟩ :=
      emit_loop_spec x thread el_access type edge other_el (g_hash_table_lookup table el) s
        hnd hlock hready
    refine ⟨s1, ?_, h2, h3, h4, h5.trans htab, h6, h7, ?_⟩
    · simp only [h1]
    · intro hnil
      rw [hnil] at h1
      simp only [emit_loop] at h1
      injection h1 with h1
      exact h1.symm

/-- Witness for C1: the single fresh subscription of `s_one 1` is enqueued with
the edge and the other element, and its `ref_count` becomes 2. -/
theorem sc_event_emit_contract_witness :
    SC_ADDR_IS_EMPTY 5 = false ∧ ((s_one 1).lookup 5).Nodup
    ∧ ∃ s1, sc_event_emit X_open 9 (s_one 1) 5 0 1 21 22 = .ok (s1, .SC_RESULT_OK)
        ∧ s1.event_queue = [(1, 21, 22)] ∧ (s1.heap 1).ref_count = 2 := by
  obtain ⟨s1, h1, h2, h3, _⟩ :=
    sc_event_emit_contract X_open 9 (s_one 1) 5 0 1 21 22 rfl (by decide) (by decide) (by decide)
  exact ⟨rfl, by decide, s1, h1, by rw [h2]; rfl,
    by rw [h3 1 (by decide) (by decide)]; rfl⟩

/-- Counterexample to C1 as stated: in `s_one (2 ^ 31 - 1)` the only subscription of
element 5 has the type of the change, passes the read check, has its flag unset,
its lock free and a callback, yet the emit does not enqueue it: the assertion of
`_sc_event_try_emit` fails. -/
theorem sc_event_emit_counterexample :
    1 ∈ (s_one (2 ^ 31 - 1)).lookup 5
    ∧ emit_claims X_open (s_one (2 ^ 31 - 1)) 0 1 1 = true
    ∧ ((s_one (2 ^ 31 - 1)).heap 1).thread_lock = 0
    ∧ ((s_one (2 ^ 31 - 1)).heap 1).callback ≠ 0
    ∧ sc_event_emit X_open 9 (s_one (2 ^ 31 - 1)) 5 0 1 21 22 = .error .assertion :=
  ⟨by decide, by decide, rfl, by decide, rfl⟩

/-- C2. `_sc_event_try_emit` on a subscription whose lock is free and whose
`ref_count` is a 32-bit value: with the destroy-requested flag set it returns
false and leaves the record as it was; with the flag unset and a live count below
`SC_EVENT_REF_COUNT_MASK` it returns true, the live count grows by exactly one
and the flag stays unset; with the flag unset and the live count at
`SC_EVENT_REF_COUNT_MASK` the assertion fails; and no returning call ever
changes the flag. -/
theorem try_emit_contract (thread : Nat) (evt : sc_event)
    (hlock : evt.thread_lock = 0) (hrange : evt.ref_count < 2 ^ 32) :
    (destroy_requested evt = true → _sc_event_try_emit thread evt = .ok (false, evt))
    ∧ (destroy_requested evt = false → live_count evt < SC_EVENT_REF_COUNT_MASK →
        ∃ e, _sc_event_try_emit thread evt = .ok (true, e)
          ∧ e = { evt with ref_count := evt.ref_count + 1 }
          ∧ live_count e = live_count evt + 1
          ∧ destroy_requested e = false)
    ∧ (destroy_requested evt = false → live_count evt = SC_EVENT_REF_COUNT_MASK →
        _sc_event_try_emit thread evt = .error .assertion)
    ∧ (∀ r e, _sc_event_try_emit thread evt = .ok (r, e) →
        destroy_requested e = destroy_requested evt) := by
  have hlive := live_count_eq_mod evt
  have hM : SC_EVENT_REF_COUNT_MASK = 2 ^ 31 - 1 := rfl
  rw [hM, hlive]
  refine ⟨try_emit_flagged thread evt hlock, ?_, ?_, ?_⟩
  · intro hd hl
    have hlt := lt_of_destroy_requested_false evt hrange hd
    have hm : evt.ref_count < 2 ^ 31 - 1 := by omega
    refine ⟨_, try_emit_claim thread evt hlock hd hm, rfl, ?_, ?_⟩
    · rw [live_count_eq_mod]
      show (evt.ref_count + 1) % 2 ^ 31 = evt.ref_count % 2 ^ 31 + 1
      omega
    · apply destroy_requested_false_of_lt
      show evt.ref_count + 1 < 2 ^ 31
      omega
  · intro hd hl
    exact try_emit_overflow thread evt hlock hd (by omega)
  · intro r e hre
    cases hd : destroy_requested evt
    · have hlt := lt_of_destroy_requested_false evt hrange hd
      by_cases hm : evt.ref_count < 2 ^ 31 - 1
      · rw [try_emit_claim thread evt hlock hd hm] at hre
        injection hre with hre
        injection hre with _ hre
        rw [← hre]
        apply destroy_requested_false_of_lt
        show evt.ref_count + 1 < 2 ^ 31
        omega
      · rw [try_emit_overflow thread evt hlock hd hm] at hre
        exact Except.noConfusion hre
    · rw [try_emit_flagged thread evt hlock hd] at hre
      injection hre with hre
      injection hre with _ hre
      rw [← hre, hd]

/-- Witness for C2: a fresh subscription (`ref_count = 1`, lock free) is claimed
and its live count becomes 2. -/
theorem try_emit_contract_witness :
    ({ g_new0 with ref_count := 1 } : sc_event).thread_lock = 0
    ∧ ({ g_new0 with ref_count := 1 } : sc_event).ref_count < 2 ^ 32
    ∧ ∃ e, _sc_event_try_emit 7 { g_new0 with ref_count := 1 } = .ok (true, e)
        ∧ live_count e = 2 ∧ destroy_requested e = false := by
  refine ⟨rfl, by decide, ?_⟩
  obtain ⟨e, h1, _, h3, h4⟩ :=
    (try_emit_contract 7 { g_new0 with ref_count := 1 } rfl (by decide)).2.1
      (by decide) (by decide)
  exact ⟨e, h1, by rw [h3]; decide, h4⟩

/-! ## Register -/

theorem new_body_rejects (x : Extern) (s : State) (ctx : sc_memory_context)
    (el type data callback callback_ex delete_callback : Nat)
    (hbad : SC_ADDR_IS_EMPTY el = true
      ∨ x.sc_storage_get_access_levels ctx el = none
      ∨ ∃ levels, x.sc_storage_get_access_levels ctx el = some levels
          ∧ x.sc_access_lvl_check_read ctx.access_levels levels = false) :
    sc_event_new_body x s ctx el type data callback callback_ex delete_callback = (s, none) := by
  unfold sc_event_new_body
  by_cases hel : SC_ADDR_IS_EMPTY el = true
  · rw [if_pos hel]
  · rw [if_neg hel]
    rcases hbad with h | h | ⟨levels, h, hr⟩
    · exact absurd h hel
    · rw [h]
    · rw [h]
      simp only [hr, Bool.not_false, if_true]

/-- C7. With a non-null callback, `sc_event_new` and `sc_event_new_ex` return no
subscription when the element is empty, when the access-level lookup of the
storage fails, or when the context does not pass the read check on the element;
the state they return is the state they were given, so the table is unchanged
and no reference on the element was taken. -/
theorem register_rejects (x : Extern) (s : State) (ctx : sc_memory_context)
    (el type data callback delete_callback : Nat)
    (hcb : callback ≠ 0)
    (hbad : SC_ADDR_IS_EMPTY el = true
      ∨ x.sc_storage_get_access_levels ctx el = none
      ∨ ∃ levels, x.sc_storage_get_access_levels ctx el = some levels
          ∧ x.sc_access_lvl_check_read ctx.access_levels levels = false) :
    sc_event_new x s ctx el type data callback delete_callback = .ok (s, none)
    ∧ sc_event_new_ex x s ctx el type data callback delete_callback = .ok (s, none) := by
  unfold sc_event_new sc_event_new_ex
  rw [if_neg hcb, if_neg hcb,
    new_body_rejects x s ctx el type data callback 0 delete_callback hbad,
    new_body_rejects x s ctx el type data 0 callback delete_callback hbad]
  exact ⟨rfl, rfl⟩

/-- Witness for C7: registering on the empty element. -/
theorem register_rejects_witness :
    (7 : Nat) ≠ 0 ∧ SC_ADDR_IS_EMPTY 0 = true
    ∧ sc_event_new X_open (s_one 1) ⟨1, 3⟩ 0 1 0 7 9 = .ok (s_one 1, none)
    ∧ sc_event_new_ex X_open (s_one 1) ⟨1, 3⟩ 0 1 0 7 9 = .ok (s_one 1, none) :=
  ⟨by decide, rfl,
    register_rejects X_open (s_one 1) ⟨1, 3⟩ 0 1 0 7 9 (by decide) (Or.inl rfl)⟩

theorem new_body_accepts (x : Extern) (s : State) (ctx : sc_memory_context)
    (el type data callback callback_ex delete_callback levels : Nat)
    (hel : SC_ADDR_IS_EMPTY el = false)
    (hget : x.sc_storage_get_access_levels ctx el = some levels)
    (hread : x.sc_access_lvl_check_read ctx.access_levels levels = true) :
    ∃ s1, sc_event_new_body x s ctx el type data callback callback_ex delete_callback
        = (s1, some s.brk)
      ∧ s1.heap s.brk =
          { element := el, type := type, data := data, callback := callback,
            callback_ex := callback_ex, delete_callback := delete_callback,
            ref_count := 1, thread_lock := 0, access_levels := ctx.access_levels }
      ∧ (∀ q, q ≠ s.brk → s1.heap q = s.heap q)
      ∧ s1.log = s.log ++ [Ext.sc_storage_element_ref el]
      ∧ s1.events_table ≠ none
      ∧ s1.lookup el = s.lookup el ++ [s.brk]
      ∧ (∀ k, k ≠ el → s1.lookup k = s.lookup k)
      ∧ s1.event_queue = s.event_queue ∧ s1.brk = s.brk + 1 := by
  unfold sc_event_new_body
  rw [hel, hget]
  simp only [Bool.false_eq_true, if_false, hread, Bool.not_true]
  unfold insert_event_into_table
  simp only [State.store, if_true, g_new0, g_slist_append]
  refine ⟨_, rfl, ?_, ?_, rfl, ?_, ?_, ?_, rfl, rfl⟩
  · simp
  · intro q hq
    simp [hq]
  · simp
  · cases htab : s.events_table <;>
      simp [State.lookup, htab, lookup_insert_self, g_hash_table_lookup]
  · intro k hk
    have hk2 : ¬ el = k := fun h => hk h.symm
    cases htab : s.events_table <;>
      simp [State.lookup, htab, lookup_insert_ne _ _ _ _ hk, g_hash_table_lookup,
        g_hash_table_insert, hk2]

/-- C8. For a non-empty element the context may read and a non-null callback,
`sc_event_new` and `sc_event_new_ex` return a new subscription (the next free
address) holding the given element, type and data, `ref_count = 1` with the
destroy-requested flag unset, the lock unowned and the access levels of the
context; `sc_event_new` fills only the slot `callback` and `sc_event_new_ex`
only the slot `callback_ex`. Exactly one `sc_storage_element_ref` on the
element is made, the table exists afterwards, the subscription is appended at
the end of the list of its element, and no other list, no other subscription
and nothing in the queue changes. -/
theorem register_success (x : Extern) (s : State) (ctx : sc_memory_context)
    (el type data callback delete_callback levels : Nat)
    (hcb : callback ≠ 0)
    (hel : SC_ADDR_IS_EMPTY el = false)
    (hget : x.sc_storage_get_access_levels ctx el = some levels)
    (hread : x.sc_access_lvl_check_read ctx.access_levels levels = true) :
    (∃ s1, sc_event_new x s ctx el type data callback delete_callback = .ok (s1, some s.brk)
      ∧ s1.heap s.brk =
          { element := el, type := type, data := data, callback := callback,
            callback_ex := 0, delete_callback := delete_callback,
            ref_count := 1, thread_lock := 0, access_levels := ctx.access_levels }
      ∧ destroy_requested (s1.heap s.brk) = false
      ∧ ((s1.heap s.brk).callback ≠ 0 ∧ (s1.heap s.brk).callback_ex = 0)
      ∧ (∀ q, q ≠ s.brk → s1.heap q = s.heap q)
      ∧ s1.log = s.log ++ [Ext.sc_storage_element_ref el]
      ∧ s1.events_table ≠ none
      ∧ s1.lookup el = s.lookup el ++ [s.brk]
      ∧ (∀ k, k ≠ el → s1.lookup k = s.lookup k)
      ∧ s1.event_queue = s.event_queue ∧ s1.brk = s.brk + 1)
    ∧ (∃ s1, sc_event_new_ex x s ctx el type data callback delete_callback
          = .ok (s1, some s.brk)
      ∧ s1.heap s.brk =
          { element := el, type := type, data := data, callback := 0,
            callback_ex := callback, delete_callback := delete_callback,
            ref_count := 1, thread_lock := 0, access_levels := ctx.access_levels }
      ∧ destroy_requested (s1.heap s.brk) = false
      ∧ ((s1.heap s.brk).callback = 0 ∧ (s1.heap s.brk).callback_ex ≠ 0)
      ∧ (∀ q, q ≠ s.brk → s1.heap q = s.heap q)
      ∧ s1.log = s.log ++ [Ext.sc_storage_element_ref el]
      ∧ s1.events_table ≠ none
      ∧ s1.lookup el = s.lookup el ++ [s.brk]
      ∧ (∀ k, k ≠ el → s1.lookup k = s.lookup k)
      ∧ s1.event_queue = s.event_queue ∧ s1.brk = s.brk + 1) := by
  unfold sc_event_new sc_event_new_ex
  rw [if_neg hcb, if_neg hcb]
  constructor
  · obtain ⟨s1, h1, h2, h3, h4, h5, h6, h7, h8, h9⟩ :=
      new_body_accepts x s ctx el type data callback 0 delete_callback levels hel hget hread
    refine ⟨s1, by rw [h1], h2, ?_, ?_, h3, h4, h5, h6, h7, h8, h9⟩
    · rw [h2]; exact destroy_requested_false_of_lt _ (by norm_num)
    · rw [h2]; exact ⟨hcb, rfl⟩
  · obtain ⟨s1, h1, h2, h3, h4, h5, h6, h7, h8, h9⟩ :=
      new_body_accepts x s ctx el type data 0 callback delete_callback levels hel hget hread
    refine ⟨s1, by rw [h1], h2, ?_, ?_, h3, h4, h5, h6, h7, h8, h9⟩
    · rw [h2]; exact destroy_requested_false_of_lt _ (by norm_num)
    · rw [h2]; exact ⟨rfl, hcb⟩

/-- Witness for C8: a second subscription on element 5 of `s_one 1` goes to
address 2, behind the first one. -/
theorem register_success_witness :
    (7 : Nat) ≠ 0 ∧ SC_ADDR_IS_EMPTY 5 = false
    ∧ ∃ s1, sc_event_new X_open (s_one 1) ⟨1, 3⟩ 5 1 0 7 9 = .ok (s1, some 2)
        ∧ s1.lookup 5 = [1, 2] ∧ (s1.heap 2).ref_count = 1 := by
  obtain ⟨s1, h1, h2, _, _, _, _, _, h8, _⟩ :=
    (register_success X_open (s_one 1) ⟨1, 3⟩ 5 1 0 7 9 0 (by decide) rfl rfl rfl).1
  exact ⟨by decide, rfl, s1, h1, by rw [h8]; rfl, by
    have : (s_one 1).brk = 2 := rfl
    rw [this] at h2
    rw [h2]⟩

/-! ## Element deletion -/

theorem request_destroy_idem (e : sc_event) :
    request_destroy (request_destroy e) = request_destroy e := by
  unfold request_destroy
  simp only [Nat.or_assoc, Nat.or_self]

theorem request_destroy_flag (e : sc_event) : destroy_requested (request_destroy e) = true := by
  rw [destroy_requested_iff_testBit]
  exact or_flag_testBit e.ref_count

theorem request_destroy_live (e : sc_event) :
    live_count (request_destroy e) = live_count e := by
  rw [live_count_eq_mod, live_count_eq_mod]
  exact or_flag_mod e.ref_count

theorem notify_mark_step (thread p : Nat) (rest : List Nat) (s : State)
    (hlock : (s.heap p).thread_lock = 0) :
    notify_mark thread (p :: rest) s
      = notify_mark thread rest (s.store p (request_destroy (s.heap p))) := by
  rw [notify_mark, lock_free thread (s.heap p) hlock]
  have : (sc_event_unlock thread
      { ({ s.heap p with thread_lock := thread } : sc_event) with
        ref_count := ({ s.heap p with thread_lock := thread } : sc_event).ref_count
          ||| SC_EVENT_REQUEST_DESTROY }).2 = request_destroy (s.heap p) := by
    generalize s.heap p = e at hlock
    obtain ⟨a1, a2, a3, a4, a5, a6, a7, a8, a9⟩ := e
    simp only at hlock
    subst hlock
    rfl
  simp only [this]

theorem notify_mark_spec (thread : Nat) (l : List Nat) :
    ∀ s : State, (∀ p ∈ l, (s.heap p).thread_lock = 0) →
      ∃ s1, notify_mark thread l s = .ok s1
        ∧ (∀ p, p ∈ l → s1.heap p = request_destroy (s.heap p))
        ∧ (∀ p, p ∉ l → s1.heap p = s.heap p)
        ∧ s1.events_table = s.events_table ∧ s1.event_queue = s.event_queue
        ∧ s1.log = s.log ∧ s1.brk = s.brk := by
  induction l with
  | nil =>
    intro s _
    exact ⟨s, rfl, by simp, by simp, rfl, rfl, rfl, rfl⟩
  | cons p rest ih =>
    intro s hlock
    rw [notify_mark_step thread p rest s (hlock p (List.mem_cons_self p rest))]
    have hlock2 : ∀ q ∈ rest, ((s.store p (request_destroy (s.heap p))).heap q).thread_lock = 0 := by
      intro q hq
      by_cases hqp : q = p
      · subst hqp
        rw [store_heap_self]
        exact hlock q (List.mem_cons_self q rest)
      · rw [store_heap_ne s p q _ hqp]
        exact hlock q (List.mem_cons_of_mem p hq)
    obtain ⟨s1, h1, h2, h3, h4, h5, h6, h7⟩ := ih _ hlock2
    refine ⟨s1, h1, ?_, ?_, h4, h5, h6, h7⟩
    · intro q hq
      by_cases hqr : q ∈ rest
      · rw [h2 q hqr]
        by_cases hqp : q = p
        · subst hqp
          rw [store_heap_self, request_destroy_idem]
        · rw [store_heap_ne s p q _ hqp]
      · have hqp : q = p := by
          rcases List.mem_cons.mp hq with h | h
          · exact h
          · exact absurd h hqr
        subst hqp
        rw [h3 q hqr, store_heap_self]
    · intro q hq
      have hqp : q ≠ p := fun h => hq (h ▸ List.mem_cons_self p rest)
      rw [h3 q (fun h => hq (List.mem_cons_of_mem p h)), store_heap_ne s p q _ hqp]

theorem emit_of_lookup_nil (x : Extern) (thread : Nat) (s : State)
    (el el_access type edge other_el : Nat)
    (hel : SC_ADDR_IS_EMPTY el = false) (hnil : s.lookup el = []) :
    sc_event_emit x thread s el el_access type edge other_el = .ok (s, .SC_RESULT_OK) := by
  unfold sc_event_emit
  rw [hel]
  simp only [Bool.false_eq_true, if_false]
  cases htab : s.events_table with
  | none => rfl
  | some table =>
    have : g_hash_table_lookup table el = [] := by
      unfold State.lookup at hnil
      rw [htab] at hnil
      exact hnil
    simp only [this, emit_loop]

theorem notify_element_deleted_spec (thread : Nat) (s : State) (element : Nat)
    (hlock : ∀ p ∈ s.lookup element, (s.heap p).thread_lock = 0) :
    ∃ s1, sc_event_notify_element_deleted thread s element = .ok (s1, .SC_RESULT_OK)
      ∧ s1.lookup element = []
      ∧ (∀ t, s.events_table = some t → s.lookup element ≠ [] →
          s1.events_table = some (g_hash_table_remove t element))
      ∧ (∀ k, k ≠ element → s1.lookup k = s.lookup k)
      ∧ (∀ p, p ∈ s.lookup element →
          s1.heap p = { s.heap p with ref_count := (s.heap p).ref_count ||| SC_EVENT_REQUEST_DESTROY }
          ∧ destroy_requested (s1.heap p) = true
          ∧ live_count (s1.heap p) = live_count (s.heap p))
      ∧ (∀ p, p ∉ s.lookup element → s1.heap p = s.heap p)
      ∧ s1.event_queue = s.event_queue ∧ s1.log = s.log ∧ s1.brk = s.brk
      ∧ (s.lookup element = [] → s1 = s)
      ∧ (∀ (x : Extern) (t el_access type edge other_el : Nat),
          SC_ADDR_IS_EMPTY element = false →
          sc_event_emit x t s1 element el_access type edge other_el
            = .ok (s1, .SC_RESULT_OK)) := by
  unfold sc_event_notify_element_deleted
  cases htab : s.events_table with
  | none =>
    have hl : ∀ k, s.lookup k = [] := by intro k; unfold State.lookup; rw [htab]
    refine ⟨s, rfl, hl element, ?_, fun _ _ => rfl, ?_, fun _ _ => rfl, rfl, rfl, rfl,
      fun _ => rfl, ?_⟩
    · intro t ht
      exact Option.noConfusion ht
    · intro p hp
      rw [hl element] at hp
      exact absurd hp (List.not_mem_nil p)
    · intro x t el_access type edge other_el hel
      exact emit_of_lookup_nil x t s element el_access type edge other_el hel (hl element)
  | some table =>
    have hl : ∀ k, s.lookup k = g_hash_table_lookup table k := by
      intro k; unfold State.lookup; rw [htab]
    rw [hl element] at hlock ⊢
    by_cases hnil : g_hash_table_lookup table element = []
    · simp only [hnil, ne_eq, not_true_eq_false, if_false]
      refine ⟨s, rfl, by rw [hl element, hnil], ?_, fun _ _ => rfl, ?_, fun _ _ => rfl,
        rfl, rfl, rfl, fun _ => rfl, ?_⟩
      · intro t _ h
        exact False.elim h
      · intro p hp
        exact absurd hp (List.not_mem_nil p)
      · intro x t el_access type edge other_el hel
        exact emit_of_lookup_nil x t s element el_access type edge other_el hel
          (by rw [hl element, hnil])
    · simp only [ne_eq, hnil, not_false_eq_true, if_true]
      obtain ⟨s1, h1, h2, h3, h4, h5, h6, h7⟩ :=
        notify_mark_spec thread (g_hash_table_lookup table element)
          { s with events_table := some (g_hash_table_remove table element) } hlock
      have hl1 : ∀ k, s1.lookup k
          = g_hash_table_lookup (g_hash_table_remove table element) k := by
        intro k; unfold State.lookup; rw [h4]
      refine ⟨s1, by simp only [h1], ?_, ?_, ?_, ?_, h3, h5, h6, h7, ?_, ?_⟩
      · rw [hl1, lookup_remove_self]
      · intro t ht _
        injection ht with ht
        rw [h4, ht]
      · intro k hk
        rw [hl1, hl k, lookup_remove_ne table element k hk]
      · intro p hp
        have hp2 : s1.heap p = request_destroy (s.heap p) := h2 p hp
        refine ⟨hp2, ?_, ?_⟩
        · rw [hp2]; exact request_destroy_flag _
        · rw [hp2]; exact request_destroy_live _
      · intro h
        exact False.elim h
      · intro x t el_access type edge other_el hel
        exact emit_of_lookup_nil x t s1 element el_access type edge other_el hel
          (by rw [hl1, lookup_remove_self])

/-- C9. When the locks of the subscriptions registered for the element are free,
`sc_event_notify_element_deleted` returns `SC_RESULT_OK`, removes the entry of
the element from the table, and sets the destroy-requested flag on each
subscription of the removed list by or-ing the flag into `ref_count`, which
leaves the live count and every other field as it was. The lists of all other
elements, all other subscriptions, the queue and the log are unchanged, an emit
on the element right afterwards returns the state it was given, and with no
list for the element (table absent or no entry) the state is unchanged. -/
theorem notify_element_deleted_contract (thread : Nat) (s : State) (element : Nat)
    (hlock : ∀ p ∈ s.lookup element, (s.heap p).thread_lock = 0) :
    ∃ s1, sc_event_notify_element_deleted thread s element = .ok (s1, .SC_RESULT_OK)
      ∧ s1.lookup element = []
      ∧ (∀ t, s.events_table = some t → s.lookup element ≠ [] →
          s1.events_table = some (g_hash_table_remove t element))
      ∧ (∀ k, k ≠ element → s1.lookup k = s.lookup k)
      ∧ (∀ p, p ∈ s.lookup element →
          s1.heap p = { s.heap p with ref_count := (s.heap p).ref_count ||| SC_EVENT_REQUEST_DESTROY }
          ∧ destroy_requested (s1.heap p) = true
          ∧ live_count (s1.heap p) = live_count (s.heap p))
      ∧ (∀ p, p ∉ s.lookup element → s1.heap p = s.heap p)
      ∧ s1.event_queue = s.event_queue ∧ s1.log = s.log ∧ s1.brk = s.brk
      ∧ (s.lookup element = [] → s1 = s)
      ∧ (∀ (x : Extern) (t el_access type edge other_el : Nat),
          SC_ADDR_IS_EMPTY element = false →
          sc_event_emit x t s1 element el_access type edge other_el
            = .ok (s1, .SC_RESULT_OK)) :=
  notify_element_deleted_spec thread s element hlock

/-- Witness for C9: deleting element 5 of `s_one 1` empties its list and marks the
subscription at address 1, whose live count stays 1. -/
theorem notify_element_deleted_contract_witness :
    (s_one 1).lookup 5 = [1] ∧ ((s_one 1).heap 1).thread_lock = 0
    ∧ ∃ s1, sc_event_notify_element_deleted 4 (s_one 1) 5 = .ok (s1, .SC_RESULT_OK)
        ∧ s1.lookup 5 = [] ∧ destroy_requested (s1.heap 1) = true
        ∧ live_count (s1.heap 1) = 1 := by
  obtain ⟨s1, h1, h2, _, _, h5, _⟩ :=
    notify_element_deleted_contract 4 (s_one 1) 5 (by decide)
  exact ⟨rfl, rfl, s1, h1, h2, (h5 1 (by decide)).2.1, by rw [(h5 1 (by decide)).2.2]; decide⟩

/-! ## Registry removal and destruction at concrete inputs -/

/-- C10. In `s_two` the record at address 2 watches element 5 and is not in the
list of element 5, which holds the subscription at address 1;
`remove_event_from_table` leaves the table as it was and reports
`SC_RESULT_OK`, not a failure. With no list for the element it does report
`SC_RESULT_ERROR_INVALID_PARAMS`. -/
theorem remove_event_from_table_absent_reports_ok :
    (s_two.heap 2).element = 5 ∧ s_two.lookup 5 = [1] ∧ 2 ∉ s_two.lookup 5
    ∧ (∃ s1, remove_event_from_table s_two 2 = .ok (s1, .SC_RESULT_OK)
        ∧ s1.events_table = s_two.events_table)
    ∧ remove_event_from_table { s_two with events_table := some [] } 2
        = .ok ({ s_two with events_table := some [] }, .SC_RESULT_ERROR_INVALID_PARAMS) :=
  ⟨rfl, rfl, by decide, ⟨_, rfl, rfl⟩, rfl⟩

/-- C4. A subscription registered on element 5 with the delete callback 9 and
destroyed with no delivery in flight: `sc_event_destroy` completes in the first
pass of its drain loop having released the element and freed the subscription,
and the delete callback was not invoked. When
`sc_event_notify_element_deleted` marked the subscription first, the same call
does invoke it, once, between the release and the free. -/
theorem sc_event_destroy_skips_delete_callback :
    ∃ s1, sc_event_new X_open State.init ⟨1, 3⟩ 5 1 0 7 9 = .ok (s1, some 1)
      ∧ (s1.heap 1).delete_callback = 9
      ∧ (∃ s2, sc_event_destroy 1 12 s1 1 = .ok (s2, some .SC_RESULT_OK)
          ∧ s2.log = [Ext.sc_storage_element_ref 5, Ext.sc_storage_element_unref 5,
              Ext.g_free 1])
      ∧ (∃ s3 s4, sc_event_notify_element_deleted 4 s1 5 = .ok (s3, .SC_RESULT_OK)
          ∧ sc_event_destroy 1 12 s3 1 = .ok (s4, some .SC_RESULT_OK)
          ∧ s4.log = [Ext.sc_storage_element_ref 5, Ext.sc_storage_element_unref 5,
              Ext.delete_callback 9 1, Ext.g_free 1]) :=
  ⟨_, rfl, rfl, ⟨_, rfl, rfl⟩, ⟨_, _, rfl, rfl, rfl⟩⟩

/-! ## The invariant of the interleavings -/

theorem lookup_congr (s1 s2 : State) (h : s1.events_table = s2.events_table) (k : Nat) :
    s1.lookup k = s2.lookup k := by
  unfold State.lookup
  rw [h]

theorem inv_init (P : Nat → Prop) (hP : ∀ p, ¬ P p) : Inv P Sys.init where
  brk_pos := by decide
  lock := fun _ _ _ => rfl
  range := fun _ _ _ => by
    show (0 : Nat) < 2 ^ 32
    norm_num
  count := fun p h1 h2 => by
    have : Sys.init.st.brk = 1 := rfl
    omega
  listed := fun p h1 h2 => by
    have : Sys.init.st.brk = 1 := rfl
    omega
  table := fun k p hp => by
    have : Sys.init.st.lookup k = [] := rfl
    rw [this] at hp
    exact absurd hp (List.not_mem_nil p)
  nodup := fun k => by
    have : Sys.init.st.lookup k = [] := rfl
    rw [this]
    exact List.nodup_nil
  gone := fun p hp => absurd hp (List.not_mem_nil p)
  queued := fun d hd => absurd hd (List.not_mem_nil d)
  callbacks := fun p h1 h2 => by
    have : Sys.init.st.brk = 1 := rfl
    omega
  sticky := fun p hp => absurd hp (hP p)

/-- A step that rewrites one subscription, keeping its element, flag and
callbacks, and leaves the table alone. -/
theorem inv_update (P : Nat → Prop) (σ σ1 : Sys) (p : Nat) (e : sc_event)
    (h : Inv P σ) (hp0 : 0 < p) (hp1 : p < σ.st.brk)
    (hbrk : σ1.st.brk = σ.st.brk)
    (htab : σ1.st.events_table = σ.st.events_table)
    (hheap : σ1.st.heap p = e)
    (hframe : ∀ q, q ≠ p → σ1.st.heap q = σ.st.heap q)
    (hD : ∀ q, q ≠ p → (q ∈ σ1.destroyed ↔ q ∈ σ.destroyed))
    (hDp : p ∈ σ1.destroyed → destroy_requested e = true)
    (hpend : ∀ q, q ≠ p → pending σ1.st q = pending σ.st q)
    (hqueue : ∀ d, d ∈ σ1.st.event_queue → 0 < d.1 ∧ d.1 < σ.st.brk)
    (he_lock : e.thread_lock = 0)
    (he_range : e.ref_count < 2 ^ 32)
    (he_count : e.ref_count % 2 ^ 31
      = (if p ∈ σ1.destroyed then 0 else 1) + pending σ1.st p)
    (he_el : e.element = (σ.st.heap p).element)
    (he_flag : destroy_requested e = destroy_requested (σ.st.heap p))
    (he_cb : e.callback = (σ.st.heap p).callback ∧ e.callback_ex = (σ.st.heap p).callback_ex) :
    Inv P σ1 := by
  have hl : ∀ k, σ1.st.lookup k = σ.st.lookup k := lookup_congr _ _ htab
  have hel : ∀ q, (σ1.st.heap q).element = (σ.st.heap q).element := by
    intro q
    by_cases hq : q = p
    · subst hq; rw [hheap, he_el]
    · rw [hframe q hq]
  have hfl : ∀ q, destroy_requested (σ1.st.heap q) = destroy_requested (σ.st.heap q) := by
    intro q
    by_cases hq : q = p
    · subst hq; rw [hheap, he_flag]
    · rw [hframe q hq]
  constructor
  · rw [hbrk]; exact h.brk_pos
  · intro q h1 h2
    rw [hbrk] at h2
    by_cases hq : q = p
    · subst hq; rw [hheap]; exact he_lock
    · rw [hframe q hq]; exact h.lock q h1 h2
  · intro q h1 h2
    rw [hbrk] at h2
    by_cases hq : q = p
    · subst hq; rw [hheap]; exact he_range
    · rw [hframe q hq]; exact h.range q h1 h2
  · intro q h1 h2
    rw [hbrk] at h2
    by_cases hq : q = p
    · subst hq; rw [hheap]; exact he_count
    · rw [hframe q hq, hpend q hq, h.count q h1 h2]
      by_cases hd : q ∈ σ.destroyed
      · rw [if_pos hd, if_pos ((hD q hq).mpr hd)]
      · rw [if_neg hd, if_neg (fun h3 => hd ((hD q hq).mp h3))]
  · intro q h1 h2 h3
    rw [hbrk] at h2
    rw [hfl] at h3
    rw [hl, hel]
    exact h.listed q h1 h2 h3
  · intro k q hq
    rw [hl] at hq
    obtain ⟨h1, h2, h3, h4⟩ := h.table k q hq
    exact ⟨h1, by rw [hbrk]; exact h2, by rw [hel]; exact h3, by rw [hfl]; exact h4⟩
  · intro k
    rw [hl]
    exact h.nodup k
  · intro q hq
    by_cases hqp : q = p
    · subst hqp
      exact ⟨hp0, by rw [hbrk]; exact hp1, by rw [hheap]; exact hDp hq⟩
    · obtain ⟨h1, h2, h3⟩ := h.gone q ((hD q hqp).mp hq)
      exact ⟨h1, by rw [hbrk]; exact h2, by rw [hfl]; exact h3⟩
  · intro d hd
    rw [hbrk]
    exact hqueue d hd
  · intro q h1 h2 h3
    rw [hbrk] at h2
    rw [hfl] at h3
    by_cases hq : q = p
    · subst hq
      rw [hheap, he_cb.1, he_cb.2]
      exact h.callbacks q h1 h2 h3
    · rw [hframe q hq]
      exact h.callbacks q h1 h2 h3
  · intro q hq
    obtain ⟨h1, h2, h3⟩ := h.sticky q hq
    exact ⟨h1, by rw [hbrk]; exact h2, by rw [hfl]; exact h3⟩

theorem pending_append (s : State) (q p a b : Nat) (qu : List (Nat × Nat × Nat))
    (h : qu = s.event_queue ++ [(p, a, b)]) (s1 : State) (h1 : s1.event_queue = qu) :
    pending s1 q = pending s q + (if p = q then 1 else 0) := by
  unfold pending
  rw [h1, h, List.countP_append, List.countP_cons, List.countP_nil]
  simp

/-- One claim of the emit loop keeps the invariant. -/
theorem inv_claim (P : Nat → Prop) (s : State) (D : List Nat) (k p a b : Nat)
    (h : Inv P ⟨s, D⟩) (hp : p ∈ s.lookup k) (hm : (s.heap p).ref_count < 2 ^ 31 - 1) :
    Inv P ⟨{ s.store p { s.heap p with ref_count := (s.heap p).ref_count + 1 } with
      event_queue := s.event_queue ++ [(p, a, b)] }, D⟩ := by
  obtain ⟨hp0, hp1, _, hfl⟩ := h.table k p hp
  have hcount := h.count p hp0 hp1
  have hnd : p ∉ D := fun hd => by
    have := (h.gone p hd).2.2
    rw [hfl] at this
    exact Bool.false_ne_true this
  apply inv_update P ⟨s, D⟩ _ p { s.heap p with ref_count := (s.heap p).ref_count + 1 } h hp0 hp1
  · rfl
  · rfl
  · exact store_heap_self s p _
  · intro q hq
    exact store_heap_ne s p q _ hq
  · intro q _
    exact Iff.rfl
  · intro hd
    exact absurd hd hnd
  · intro q hq
    rw [pending_append s q p a b _ rfl _ rfl, if_neg (fun h2 => hq h2.symm)]
    rfl
  · intro d hd
    rcases List.mem_append.mp hd with h1 | h1
    · exact h.queued d h1
    · rw [List.mem_singleton.mp h1]
      exact ⟨hp0, hp1⟩
  · exact h.lock p hp0 hp1
  · show (s.heap p).ref_count + 1 < 2 ^ 32
    omega
  · rw [pending_append s p p a b _ rfl _ rfl, if_pos rfl]
    show ((s.heap p).ref_count + 1) % 2 ^ 31 = _
    simp only [if_neg hnd] at hcount ⊢
    omega
  · rfl
  · rw [hfl]
    apply destroy_requested_false_of_lt
    show (s.heap p).ref_count + 1 < 2 ^ 31
    omega
  · exact ⟨rfl, rfl⟩

theorem inv_emit_loop (P : Nat → Prop) (x : Extern)
    (thread el_access type edge other_el k : Nat) (D : List Nat) (l : List Nat) :
    ∀ s s1 : State, Inv P ⟨s, D⟩ → (∀ p ∈ l, p ∈ s.lookup k) →
      emit_loop x thread el_access type edge other_el l s = .ok s1 →
      Inv P ⟨s1, D⟩ ∧ s1.events_table = s.events_table
        ∧ (∀ q, destroy_requested (s.heap q) = true →
            s1.heap q = s.heap q ∧ pending s1 q = pending s q) := by
  induction l with
  | nil =>
    intro s s1 h _ hrun
    simp only [emit_loop] at hrun
    injection hrun with hrun
    subst hrun
    exact ⟨h, rfl, fun _ _ => ⟨rfl, rfl⟩⟩
  | cons p rest ih =>
    intro s s1 h hl hrun
    have hp := hl p (List.mem_cons_self p rest)
    obtain ⟨hp0, hp1, _, hfl⟩ := h.table k p hp
    have hlock := h.lock p hp0 hp1
    by_cases hmatch : (s.heap p).type = type
        ∧ x.sc_access_lvl_check_read (s.heap p).access_levels el_access = true
    · by_cases hm : (s.heap p).ref_count < 2 ^ 31 - 1
      · have hcb : (s.heap p).callback ≠ 0 ∨ (s.heap p).callback_ex ≠ 0 := by
          rcases h.callbacks p hp0 hp1 hfl with h1 | h1
          · exact Or.inl h1.1
          · exact Or.inr h1.2
        rw [emit_loop_claim x thread el_access type edge other_el p rest s hmatch hlock hfl hm hcb]
          at hrun
        have hinv := inv_claim P s D k p edge other_el h hp hm
        obtain ⟨h1, h2, h3⟩ := ih _ s1 hinv
          (fun q hq => hl q (List.mem_cons_of_mem p hq)) hrun
        refine ⟨h1, h2, ?_⟩
        intro q hq
        have hqp : q ≠ p := fun h4 => by
          rw [h4, hfl] at hq
          exact Bool.false_ne_true hq
        have hheap := store_heap_ne s p q
          { s.heap p with ref_count := (s.heap p).ref_count + 1 } hqp
        obtain ⟨h5, h6⟩ := h3 q (by
          show destroy_requested ((s.store p _).heap q) = true
          rw [hheap]; exact hq)
        refine ⟨h5.trans hheap, ?_⟩
        rw [h6, pending_append s q p edge other_el _ rfl _ rfl, if_neg (fun h7 => hqp h7.symm)]
        rfl
      · rw [emit_loop_overflow x thread el_access type edge other_el p rest s hmatch hlock hfl hm]
          at hrun
        exact Except.noConfusion hrun
    · rw [emit_loop_skip x thread el_access type edge other_el p rest s hmatch] at hrun
      exact ih s s1 h (fun q hq => hl q (List.mem_cons_of_mem p hq)) hrun

theorem store_store (s : State) (p : Nat) (a b : sc_event) :
    (s.store p a).store p b = s.store p b := by
  unfold State.store
  have : (fun q => if q = p then b else (fun q => if q = p then a else s.heap q) q)
      = (fun q => if q = p then b else s.heap q) := by
    funext q
    by_cases h : q = p
    · rw [if_pos h, if_pos h]
    · rw [if_neg h, if_neg h]
      simp only [if_neg h]
  simp only [this]

theorem countP_eraseIdx {α : Type} (f : α → Bool) (l : List α) :
    ∀ (i : Nat) (d : α), l[i]? = some d →
      List.countP f (l.eraseIdx i) + (if f d = true then 1 else 0) = List.countP f l := by
  induction l with
  | nil =>
    intro i d h
    simp at h
  | cons a t ih =>
    intro i d h
    cases i with
    | zero =>
      simp only [List.getElem?_cons_zero, Option.some.injEq] at h
      subst h
      rw [List.eraseIdx_cons_zero, List.countP_cons]
    | succ j =>
      simp only [List.getElem?_cons_succ] at h
      rw [List.eraseIdx_cons_succ, List.countP_cons, List.countP_cons, ← ih j d h]
      omega

theorem flag_eq_of_ge_iff (e1 e2 : sc_event) (h1 : e1.ref_count < 2 ^ 32)
    (h2 : e2.ref_count < 2 ^ 32) (h : 2 ^ 31 ≤ e1.ref_count ↔ 2 ^ 31 ≤ e2.ref_count) :
    destroy_requested e1 = destroy_requested e2 := by
  have a1 := destroy_requested_iff_ge e1 h1
  have a2 := destroy_requested_iff_ge e2 h2
  cases hd1 : destroy_requested e1 <;> cases hd2 : destroy_requested e2
  · rfl
  · exact absurd (a1.mpr (h.mpr (a2.mp hd2))) (by rw [hd1]; exact Bool.false_ne_true)
  · exact absurd (a2.mpr (h.mp (a1.mp hd1))) (by rw [hd2]; exact Bool.false_ne_true)
  · rfl

theorem state_unref_eq (thread : Nat) (s : State) (p : Nat) (h : (s.heap p).thread_lock = 0) :
    s.unref thread p
      = .ok (s.store p
          { s.heap p with ref_count := ((s.heap p).ref_count + 2 ^ 32 - 1) % 2 ^ 32 }, false) := by
  unfold State.unref
  rw [unref_eq thread (s.heap p) h]

theorem dec_arith (rc c n m : Nat) (h1 : rc < 2 ^ 32) (h2 : rc % 2 ^ 31 = c + n)
    (h3 : 1 ≤ c + n) (h4 : c + m + 1 = c + n) :
    (rc + 2 ^ 32 - 1) % 2 ^ 32 < 2 ^ 32
      ∧ (rc + 2 ^ 32 - 1) % 2 ^ 32 % 2 ^ 31 = c + m
      ∧ (2 ^ 31 ≤ (rc + 2 ^ 32 - 1) % 2 ^ 32 ↔ 2 ^ 31 ≤ rc) := by
  omega

/-- The queue worker releasing one delivery keeps the invariant and the table. -/
theorem inv_release (P : Nat → Prop) (s s1 : State) (D : List Nat) (thread i : Nat)
    (d : Nat × Nat × Nat) (r : Bool)
    (h : Inv P ⟨s, D⟩) (hd : s.event_queue[i]? = some d)
    (hrun : s.unref thread d.1 = .ok (s1, r)) :
    Inv P ⟨{ s1 with event_queue := s1.event_queue.eraseIdx i }, D⟩
      ∧ s1.events_table = s.events_table := by
  have hmem : d ∈ s.event_queue := List.getElem?_mem hd
  obtain ⟨hp0, hp1⟩ := h.queued d hmem
  have hlock : (s.heap d.1).thread_lock = 0 := h.lock d.1 hp0 hp1
  have hrange : (s.heap d.1).ref_count < 2 ^ 32 := h.range d.1 hp0 hp1
  have hcount : (s.heap d.1).ref_count % 2 ^ 31
      = (if d.1 ∈ D then 0 else 1) + pending s d.1 := h.count d.1 hp0 hp1
  rw [state_unref_eq thread s d.1 hlock] at hrun
  injection hrun with hrun
  injection hrun with hrun _
  subst hrun
  have herase : ∀ q, List.countP (fun d : Nat × Nat × Nat => decide (d.1 = q))
        (s.event_queue.eraseIdx i)
      + (if d.1 = q then 1 else 0) = pending s q := by
    intro q
    have := countP_eraseIdx (fun d : Nat × Nat × Nat => decide (d.1 = q)) s.event_queue i d hd
    simp only [decide_eq_true_eq] at this
    exact this
  have hone := herase d.1
  rw [if_pos rfl] at hone
  obtain ⟨a1, a2, a3⟩ := dec_arith (s.heap d.1).ref_count (if d.1 ∈ D then 0 else 1)
    (pending s d.1) (List.countP (fun e : Nat × Nat × Nat => decide (e.1 = d.1))
        (s.event_queue.eraseIdx i)) hrange hcount (by omega) (by omega)
  have hflag : destroy_requested
      { s.heap d.1 with ref_count := ((s.heap d.1).ref_count + 2 ^ 32 - 1) % 2 ^ 32 }
      = destroy_requested (s.heap d.1) :=
    flag_eq_of_ge_iff _ _ a1 hrange a3
  refine ⟨?_, rfl⟩
  exact inv_update P ⟨s, D⟩ _ d.1
    { s.heap d.1 with ref_count := ((s.heap d.1).ref_count + 2 ^ 32 - 1) % 2 ^ 32 } h hp0 hp1
    rfl rfl (store_heap_self s d.1 _) (fun q hq => store_heap_ne s d.1 q _ hq)
    (fun q _ => Iff.rfl)
    (fun hdd => by rw [hflag]; exact (h.gone d.1 hdd).2.2)
    (fun q hq => by
      have := herase q
      rw [if_neg (fun h2 => hq h2.symm)] at this
      exact this)
    (fun e he => h.queued e (List.eraseIdx_subset _ _ he))
    hlock a1 a2 rfl hflag ⟨rfl, rfl⟩

/-! ## The first part of `sc_event_destroy` -/

theorem destroy_requested_lock (thread : Nat) (e : sc_event) :
    destroy_requested { e with thread_lock := thread } = destroy_requested e := rfl

theorem destroy_mark_flagged_eq (thread : Nat) (s : State) (p : Nat)
    (hlock : (s.heap p).thread_lock = 0) (hd : destroy_requested (s.heap p) = true) :
    sc_event_destroy_mark thread s p
      = .ok (s.store p
          { s.heap p with ref_count := ((s.heap p).ref_count + 2 ^ 32 - 1) % 2 ^ 32 }, none) := by
  unfold sc_event_destroy_mark
  rw [lock_free thread (s.heap p) hlock]
  simp only [store_heap_self, destroy_requested_lock, hd, if_true,
    (unlock_after_lock thread (s.heap p) hlock).2, store_store, store_self]
  rw [state_unref_eq thread s p hlock]

theorem remove_event_from_table_spec (s : State) (p : Nat)
    (hne : s.lookup (s.heap p).element ≠ []) :
    ∃ s1, remove_event_from_table s p = .ok (s1, .SC_RESULT_OK)
      ∧ s1.heap = s.heap ∧ s1.brk = s.brk ∧ s1.event_queue = s.event_queue ∧ s1.log = s.log
      ∧ (∀ k, s1.lookup k
          = if k = (s.heap p).element then (s.lookup k).erase p else s.lookup k) := by
  unfold remove_event_from_table
  cases htab : s.events_table with
  | none =>
    exfalso
    apply hne
    unfold State.lookup
    rw [htab]
  | some table =>
    have hl : ∀ k, s.lookup k = g_hash_table_lookup table k := by
      intro k; unfold State.lookup; rw [htab]
    rw [hl] at hne
    simp only [hne, if_false, g_slist_remove, g_hash_table_size]
    have hlook : ∀ k, g_hash_table_lookup
        (if (g_hash_table_lookup table (s.heap p).element).erase p = [] then
          g_hash_table_remove table (s.heap p).element
        else g_hash_table_insert table (s.heap p).element
          ((g_hash_table_lookup table (s.heap p).element).erase p)) k
        = if k = (s.heap p).element then (g_hash_table_lookup table k).erase p
          else g_hash_table_lookup table k := by
      intro k
      by_cases hk : k = (s.heap p).element
      · subst hk
        rw [if_pos rfl]
        by_cases he : (g_hash_table_lookup table (s.heap p).element).erase p = []
        · rw [if_pos he, lookup_remove_self, he]
        · rw [if_neg he, lookup_insert_self]
      · rw [if_neg hk]
        by_cases he : (g_hash_table_lookup table (s.heap p).element).erase p = []
        · rw [if_pos he, lookup_remove_ne _ _ _ hk]
        · rw [if_neg he, lookup_insert_ne _ _ _ _ hk]
    generalize (if (g_hash_table_lookup table (s.heap p).element).erase p = [] then
          g_hash_table_remove table (s.heap p).element
        else g_hash_table_insert table (s.heap p).element
          ((g_hash_table_lookup table (s.heap p).element).erase p)) = table1 at hlook
    by_cases hsize : table1.length = 0
    · rw [if_pos hsize]
      refine ⟨_, rfl, rfl, rfl, rfl, rfl, ?_⟩
      intro k
      rw [hl k, ← hlook k, List.length_eq_zero.mp hsize]
      rfl
    · rw [if_neg hsize]
      refine ⟨_, rfl, rfl, rfl, rfl, rfl, ?_⟩
      intro k
      rw [hl k, ← hlook k]
      rfl

theorem remove_event_from_table_heap (s : State) (p : Nat) (e : sc_event)
    (he : e.element = (s.heap p).element) :
    remove_event_from_table (s.store p e) p
      = match remove_event_from_table s p with
        | .error f => .error f
        | .ok (s1, r) => .ok (s1.store p e, r) := by
  unfold remove_event_from_table
  have h1 : (s.store p e).events_table = s.events_table := rfl
  have h2 : ((s.store p e).heap p).element = (s.heap p).element := by
    rw [store_heap_self]; exact he
  rw [h1, h2]
  cases s.events_table with
  | none => rfl
  | some table =>
    simp only
    split_ifs <;> rfl

theorem destroy_mark_unflagged_spec (thread : Nat) (s : State) (p : Nat)
    (hlock : (s.heap p).thread_lock = 0) (hd : destroy_requested (s.heap p) = false)
    (hne : s.lookup (s.heap p).element ≠ []) :
    ∃ s1, sc_event_destroy_mark thread s p = .ok (s1, none)
      ∧ s1.heap p =
          { s.heap p with
            ref_count :=
              (((s.heap p).ref_count ||| SC_EVENT_REQUEST_DESTROY) + 2 ^ 32 - 1) % 2 ^ 32,
            callback := 0, callback_ex := 0, delete_callback := 0 }
      ∧ (∀ q, q ≠ p → s1.heap q = s.heap q)
      ∧ s1.brk = s.brk ∧ s1.event_queue = s.event_queue ∧ s1.log = s.log
      ∧ (∀ k, s1.lookup k
          = if k = (s.heap p).element then (s.lookup k).erase p else s.lookup k) := by
  obtain ⟨s2, hrem, h1, h2, h3, h4, h5⟩ := remove_event_from_table_spec s p hne
  unfold sc_event_destroy_mark
  rw [lock_free thread (s.heap p) hlock]
  simp only [store_heap_self, destroy_requested_lock, hd, Bool.false_eq_true, if_false]
  rw [remove_event_from_table_heap s p { s.heap p with thread_lock := thread } rfl, hrem]
  simp only [ne_eq, not_true_eq_false, if_false, store_heap_self]
  have hun : (sc_event_unlock thread
      { ({ ({ s.heap p with thread_lock := thread } : sc_event) with
            ref_count := (s.heap p).ref_count ||| SC_EVENT_REQUEST_DESTROY } : sc_event) with
        callback := 0, callback_ex := 0, delete_callback := 0 }).2
      = { s.heap p with
          ref_count := (s.heap p).ref_count ||| SC_EVENT_REQUEST_DESTROY,
          callback := 0, callback_ex := 0, delete_callback := 0 } := by
    generalize s.heap p = e at hlock
    obtain ⟨a1, a2, a3, a4, a5, a6, a7, a8, a9⟩ := e
    simp only at hlock
    subst hlock
    rfl
  rw [hun, store_store, state_unref_eq thread _ p (by rw [store_heap_self]; exact hlock)]
  simp only [store_heap_self, store_store]
  refine ⟨_, rfl, store_heap_self _ _ _, ?_, h2, h3, h4, ?_⟩
  · intro q hq
    rw [store_heap_ne _ _ _ _ hq, h1]
  · intro k
    rw [← h5 k]
    rfl

theorem mark_arith (rc n : Nat) (h2 : rc % 2 ^ 31 = 1 + n) :
    (2 ^ 31 + rc % 2 ^ 31 + 2 ^ 32 - 1) % 2 ^ 32 < 2 ^ 32
      ∧ (2 ^ 31 + rc % 2 ^ 31 + 2 ^ 32 - 1) % 2 ^ 32 % 2 ^ 31 = 0 + n
      ∧ 2 ^ 31 ≤ (2 ^ 31 + rc % 2 ^ 31 + 2 ^ 32 - 1) % 2 ^ 32 := by
  omega

/-- The first part of `sc_event_destroy`, run once on a registered subscription,
goes on to the drain loop and keeps the invariant. -/
theorem inv_destroy_mark (P : Nat → Prop) (thread : Nat) (s : State) (D : List Nat) (p : Nat)
    (h : Inv P ⟨s, D⟩) (hp0 : 0 < p) (hp1 : p < s.brk) (hpD : p ∉ D) :
    ∃ s1, sc_event_destroy_mark thread s p = .ok (s1, none) ∧ Inv P ⟨s1, p :: D⟩ := by
  have hlock : (s.heap p).thread_lock = 0 := h.lock p hp0 hp1
  have hrange : (s.heap p).ref_count < 2 ^ 32 := h.range p hp0 hp1
  have hcount : (s.heap p).ref_count % 2 ^ 31 = (if p ∈ D then 0 else 1) + pending s p :=
    h.count p hp0 hp1
  rw [if_neg hpD] at hcount
  have hDiff : ∀ q, q ≠ p → (q ∈ p :: D ↔ q ∈ D) := by
    intro q hq
    rw [List.mem_cons]
    exact ⟨fun h1 => h1.resolve_left hq, Or.inr⟩
  cases hd : destroy_requested (s.heap p) with
  | true =>
    refine ⟨_, destroy_mark_flagged_eq thread s p hlock hd, ?_⟩
    obtain ⟨a1, a2, a3⟩ := dec_arith (s.heap p).ref_count 0 (1 + pending s p) (pending s p)
      hrange (by omega) (by omega) (by omega)
    have hflag : destroy_requested
        { s.heap p with ref_count := ((s.heap p).ref_count + 2 ^ 32 - 1) % 2 ^ 32 }
        = destroy_requested (s.heap p) :=
      flag_eq_of_ge_iff _ _ a1 hrange a3
    exact inv_update P ⟨s, D⟩ ⟨_, p :: D⟩ p
      { s.heap p with ref_count := ((s.heap p).ref_count + 2 ^ 32 - 1) % 2 ^ 32 } h hp0 hp1
      rfl rfl (store_heap_self s p _) (fun q hq => store_heap_ne s p q _ hq)
      hDiff (fun _ => by rw [hflag]; exact hd) (fun q _ => rfl) h.queued
      hlock a1 (by
        show _ = (if p ∈ p :: D then 0 else 1) + pending s p
        rw [if_pos (List.mem_cons_self p D)]
        exact a2) rfl hflag ⟨rfl, rfl⟩
  | false =>
    have hlisted := h.listed p hp0 hp1 hd
    obtain ⟨s1, hrun, b1, b2, b3, b4, _, b6⟩ :=
      destroy_mark_unflagged_spec thread s p hlock hd (List.ne_nil_of_mem hlisted)
    have hlt : (s.heap p).ref_count < 2 ^ 31 := lt_of_destroy_requested_false _ hrange hd
    have hor : (s.heap p).ref_count ||| SC_EVENT_REQUEST_DESTROY
        = 2 ^ 31 + (s.heap p).ref_count % 2 ^ 31 := or_flag_eq _ hrange
    obtain ⟨a1, a2, a3⟩ := mark_arith (s.heap p).ref_count (pending s p) hcount
    rw [hor] at b1
    have hpflag : destroy_requested (s1.heap p) = true := by
      rw [b1]
      exact (destroy_requested_iff_ge
        { s.heap p with
          ref_count := (2 ^ 31 + (s.heap p).ref_count % 2 ^ 31 + 2 ^ 32 - 1) % 2 ^ 32,
          callback := 0, callback_ex := 0, delete_callback := 0 } a1).mpr a3
    have hpend : ∀ q, pending s1 q = pending s q := by
      intro q; unfold pending; rw [b4]
    have hmem : ∀ k q, q ∈ s1.lookup k → q ≠ p ∧ q ∈ s.lookup k := by
      intro k q hq
      rw [b6 k] at hq
      by_cases hk : k = (s.heap p).element
      · rw [if_pos hk] at hq
        exact ⟨((h.nodup k).mem_erase_iff.mp hq).1, ((h.nodup k).mem_erase_iff.mp hq).2⟩
      · rw [if_neg hk] at hq
        refine ⟨fun hqp => hk ?_, hq⟩
        rw [← (h.table k q hq).2.2.1, hqp]
    refine ⟨s1, hrun, ?_⟩
    constructor
    · show 0 < s1.brk
      rw [b3]; exact h.brk_pos
    · intro q h1 h2
      have h2 : q < s.brk := by rw [← b3]; exact h2
      show (s1.heap q).thread_lock = 0
      by_cases hq : q = p
      · subst hq; rw [b1]; exact hlock
      · rw [b2 q hq]; exact h.lock q h1 h2
    · intro q h1 h2
      have h2 : q < s.brk := by rw [← b3]; exact h2
      show (s1.heap q).ref_count < 2 ^ 32
      by_cases hq : q = p
      · subst hq; rw [b1]; exact a1
      · rw [b2 q hq]; exact h.range q h1 h2
    · intro q h1 h2
      have h2 : q < s.brk := by rw [← b3]; exact h2
      show (s1.heap q).ref_count % 2 ^ 31 = (if q ∈ p :: D then 0 else 1) + pending s1 q
      rw [hpend]
      by_cases hq : q = p
      · subst hq
        rw [b1, if_pos (List.mem_cons_self q D)]
        exact a2
      · rw [b2 q hq]
        have := h.count q h1 h2
        by_cases hqD : q ∈ D
        · rw [if_pos ((hDiff q hq).mpr hqD)]
          rw [if_pos hqD] at this
          exact this
        · rw [if_neg (fun h3 => hqD ((hDiff q hq).mp h3))]
          rw [if_neg hqD] at this
          exact this
    · intro q h1 h2 h3
      have h2 : q < s.brk := by rw [← b3]; exact h2
      have h3 : destroy_requested (s1.heap q) = false := h3
      show q ∈ s1.lookup (s1.heap q).element
      have hq : q ≠ p := fun hqp => by
        rw [hqp, hpflag] at h3
        exact Bool.noConfusion h3
      rw [b2 q hq] at h3 ⊢
      rw [b6]
      have := h.listed q h1 h2 h3
      by_cases hk : (s.heap q).element = (s.heap p).element
      · rw [if_pos hk]
        exact (List.mem_erase_of_ne hq).mpr this
      · rw [if_neg hk]
        exact this
    · intro k q hq
      obtain ⟨hqp, hq2⟩ := hmem k q hq
      obtain ⟨h1, h2, h3, h4⟩ := h.table k q hq2
      refine ⟨h1, ?_, ?_, ?_⟩
      · show q < s1.brk
        rw [b3]; exact h2
      · show (s1.heap q).element = k
        rw [b2 q hqp]; exact h3
      · show destroy_requested (s1.heap q) = false
        rw [b2 q hqp]; exact h4
    · intro k
      show (s1.lookup k).Nodup
      rw [b6]
      by_cases hk : k = (s.heap p).element
      · rw [if_pos hk]
        exact (h.nodup k).erase p
      · rw [if_neg hk]
        exact h.nodup k
    · intro q hq
      have hq : q ∈ p :: D := hq
      show 0 < q ∧ q < s1.brk ∧ destroy_requested (s1.heap q) = true
      rw [b3]
      by_cases hqp : q = p
      · subst hqp
        exact ⟨hp0, hp1, hpflag⟩
      · obtain ⟨h1, h2, h3⟩ := h.gone q ((hDiff q hqp).mp hq)
        exact ⟨h1, h2, by rw [b2 q hqp]; exact h3⟩
    · intro d hd2
      have hd2 : d ∈ s1.event_queue := hd2
      show 0 < d.1 ∧ d.1 < s1.brk
      rw [b3]
      rw [b4] at hd2
      exact h.queued d hd2
    · intro q h1 h2 h3
      have h2 : q < s.brk := by rw [← b3]; exact h2
      have h3 : destroy_requested (s1.heap q) = false := h3
      have hq : q ≠ p := fun hqp => by
        rw [hqp, hpflag] at h3
        exact Bool.noConfusion h3
      show ((s1.heap q).callback ≠ 0 ∧ (s1.heap q).callback_ex = 0)
        ∨ ((s1.heap q).callback = 0 ∧ (s1.heap q).callback_ex ≠ 0)
      rw [b2 q hq] at h3 ⊢
      exact h.callbacks q h1 h2 h3
    · intro q hq
      obtain ⟨h1, h2, h3⟩ := h.sticky q hq
      show 0 < q ∧ q < s1.brk ∧ destroy_requested (s1.heap q) = true
      rw [b3]
      refine ⟨h1, h2, ?_⟩
      by_cases hqp : q = p
      · subst hqp; exact hpflag
      · rw [b2 q hqp]; exact h3

/-- Deleting an element keeps the invariant. -/
theorem inv_notify (P : Nat → Prop) (thread : Nat) (s : State) (D : List Nat) (k : Nat)
    (h : Inv P ⟨s, D⟩) :
    ∃ s1, sc_event_notify_element_deleted thread s k = .ok (s1, .SC_RESULT_OK)
      ∧ Inv P ⟨s1, D⟩ := by
  have hlock : ∀ p ∈ s.lookup k, (s.heap p).thread_lock = 0 := fun p hp =>
    h.lock p (h.table k p hp).1 (h.table k p hp).2.1
  obtain ⟨s1, hrun, b1, _, b3, b4, b5, b6, _, b8, _, _⟩ :=
    notify_element_deleted_spec thread s k hlock
  have hpend : ∀ q, pending s1 q = pending s q := by
    intro q; unfold pending; rw [b6]
  have hflag : ∀ q, destroy_requested (s.heap q) = true →
      destroy_requested (s1.heap q) = true := by
    intro q hq
    by_cases hql : q ∈ s.lookup k
    · exact (b4 q hql).2.1
    · rw [b5 q hql]; exact hq
  have hsame : ∀ q, destroy_requested (s1.heap q) = false → s1.heap q = s.heap q := by
    intro q hq
    by_cases hql : q ∈ s.lookup k
    · rw [(b4 q hql).2.1] at hq
      exact Bool.noConfusion hq
    · exact b5 q hql
  refine ⟨s1, hrun, ?_⟩
  constructor
  · show 0 < s1.brk
    rw [b8]; exact h.brk_pos
  · intro q h1 h2
    have h2 : q < s.brk := by rw [← b8]; exact h2
    show (s1.heap q).thread_lock = 0
    by_cases hql : q ∈ s.lookup k
    · rw [(b4 q hql).1]; exact h.lock q h1 h2
    · rw [b5 q hql]; exact h.lock q h1 h2
  · intro q h1 h2
    have h2 : q < s.brk := by rw [← b8]; exact h2
    show (s1.heap q).ref_count < 2 ^ 32
    by_cases hql : q ∈ s.lookup k
    · rw [(b4 q hql).1]; exact or_flag_lt _ (h.range q h1 h2)
    · rw [b5 q hql]; exact h.range q h1 h2
  · intro q h1 h2
    have h2 : q < s.brk := by rw [← b8]; exact h2
    show (s1.heap q).ref_count % 2 ^ 31 = (if q ∈ D then 0 else 1) + pending s1 q
    rw [hpend]
    by_cases hql : q ∈ s.lookup k
    · rw [(b4 q hql).1]
      exact (or_flag_mod _).trans (h.count q h1 h2)
    · rw [b5 q hql]; exact h.count q h1 h2
  · intro q h1 h2 h3
    have h2 : q < s.brk := by rw [← b8]; exact h2
    have h3 : destroy_requested (s1.heap q) = false := h3
    show q ∈ s1.lookup (s1.heap q).element
    have hq := hsame q h3
    rw [hq] at h3 ⊢
    have hin := h.listed q h1 h2 h3
    have hk : (s.heap q).element ≠ k := fun hk => by
      rw [hk] at hin
      have := (b4 q hin).2.1
      rw [hq, h3] at this
      exact Bool.noConfusion this
    rw [b3 _ hk]
    exact hin
  · intro k1 q hq
    have hk : k1 ≠ k := fun hk => by
      rw [hk, b1] at hq
      exact absurd hq (List.not_mem_nil q)
    rw [b3 k1 hk] at hq
    obtain ⟨h1, h2, h3, h4⟩ := h.table k1 q hq
    have hql : q ∉ s.lookup k := fun hql => hk ((h3.symm).trans (h.table k q hql).2.2.1)
    refine ⟨h1, ?_, ?_, ?_⟩
    · show q < s1.brk
      rw [b8]; exact h2
    · show (s1.heap q).element = k1
      rw [b5 q hql]; exact h3
    · show destroy_requested (s1.heap q) = false
      rw [b5 q hql]; exact h4
  · intro k1
    show (s1.lookup k1).Nodup
    by_cases hk : k1 = k
    · rw [hk, b1]; exact List.nodup_nil
    · rw [b3 k1 hk]; exact h.nodup k1
  · intro q hq
    obtain ⟨h1, h2, h3⟩ := h.gone q hq
    exact ⟨h1, by show q < s1.brk; rw [b8]; exact h2, hflag q h3⟩
  · intro d hd
    have hd : d ∈ s1.event_queue := hd
    rw [b6] at hd
    show 0 < d.1 ∧ d.1 < s1.brk
    rw [b8]
    exact h.queued d hd
  · intro q h1 h2 h3
    have h2 : q < s.brk := by rw [← b8]; exact h2
    have h3 : destroy_requested (s1.heap q) = false := h3
    show ((s1.heap q).callback ≠ 0 ∧ (s1.heap q).callback_ex = 0)
      ∨ ((s1.heap q).callback = 0 ∧ (s1.heap q).callback_ex ≠ 0)
    have hq := hsame q h3
    rw [hq] at h3 ⊢
    exact h.callbacks q h1 h2 h3
  · intro q hq
    obtain ⟨h1, h2, h3⟩ := h.sticky q hq
    exact ⟨h1, by show q < s1.brk; rw [b8]; exact h2, hflag q h3⟩

theorem new_body_cases (x : Extern) (s : State) (ctx : sc_memory_context)
    (el type data callback callback_ex delete_callback : Nat) :
    sc_event_new_body x s ctx el type data callback callback_ex delete_callback = (s, none)
    ∨ ∃ levels, SC_ADDR_IS_EMPTY el = false
        ∧ x.sc_storage_get_access_levels ctx el = some levels
        ∧ x.sc_access_lvl_check_read ctx.access_levels levels = true := by
  cases hel : SC_ADDR_IS_EMPTY el with
  | true => exact Or.inl (new_body_rejects x s ctx el type data _ _ _ (Or.inl hel))
  | false =>
    cases hget : x.sc_storage_get_access_levels ctx el with
    | none => exact Or.inl (new_body_rejects x s ctx el type data _ _ _ (Or.inr (Or.inl hget)))
    | some levels =>
      cases hread : x.sc_access_lvl_check_read ctx.access_levels levels with
      | false =>
        exact Or.inl (new_body_rejects x s ctx el type data _ _ _
          (Or.inr (Or.inr ⟨levels, hget, hread⟩)))
      | true => exact Or.inr ⟨levels, rfl, rfl, hread⟩

/-- A registration keeps the invariant. -/
theorem inv_new_body (P : Nat → Prop) (x : Extern) (s : State) (D : List Nat)
    (ctx : sc_memory_context) (el type data callback callback_ex delete_callback : Nat)
    (hcb : (callback ≠ 0 ∧ callback_ex = 0) ∨ (callback = 0 ∧ callback_ex ≠ 0))
    (h : Inv P ⟨s, D⟩) :
    Inv P ⟨(sc_event_new_body x s ctx el type data callback callback_ex delete_callback).1, D⟩ := by
  rcases new_body_cases x s ctx el type data callback callback_ex delete_callback with
    hrej | ⟨levels, hel, hget, hread⟩
  · rw [hrej]; exact h
  · obtain ⟨s1, hrun, b1, b2, _, _, b5, b6, b7, b8⟩ :=
      new_body_accepts x s ctx el type data callback callback_ex delete_callback levels
        hel hget hread
    rw [hrun]
    show Inv P ⟨s1, D⟩
    have hfresh : destroy_requested (s1.heap s.brk) = false := by
      rw [b1]; exact destroy_requested_false_of_lt _ (by norm_num)
    have hpend : ∀ q, pending s1 q = pending s q := by
      intro q; unfold pending; rw [b7]
    have hold : ∀ q, q < s.brk → s1.heap q = s.heap q := fun q hq => b2 q (by omega)
    have hsub : ∀ k q, q ∈ s.lookup k → q ∈ s1.lookup k := by
      intro k q hq
      by_cases hk : k = el
      · subst hk; rw [b5]; exact List.mem_append_left _ hq
      · rw [b6 k hk]; exact hq
    have hsplit : ∀ k q, q ∈ s1.lookup k → q ∈ s.lookup k ∨ (q = s.brk ∧ k = el) := by
      intro k q hq
      by_cases hk : k = el
      · subst hk
        rw [b5] at hq
        rcases List.mem_append.mp hq with h1 | h1
        · exact Or.inl h1
        · exact Or.inr ⟨List.mem_singleton.mp h1, rfl⟩
      · rw [b6 k hk] at hq
        exact Or.inl hq
    constructor
    · show 0 < s1.brk
      omega
    · intro q h1 h2
      have h2 : q < s.brk + 1 := by rw [← b8]; exact h2
      show (s1.heap q).thread_lock = 0
      by_cases hq : q = s.brk
      · subst hq; rw [b1]
      · rw [b2 q hq]; exact h.lock q h1 (show q < s.brk by omega)
    · intro q h1 h2
      have h2 : q < s.brk + 1 := by rw [← b8]; exact h2
      show (s1.heap q).ref_count < 2 ^ 32
      by_cases hq : q = s.brk
      · subst hq; rw [b1]; norm_num
      · rw [b2 q hq]; exact h.range q h1 (show q < s.brk by omega)
    · intro q h1 h2
      have h2 : q < s.brk + 1 := by rw [← b8]; exact h2
      show (s1.heap q).ref_count % 2 ^ 31 = (if q ∈ D then 0 else 1) + pending s1 q
      rw [hpend]
      by_cases hq : q = s.brk
      · subst hq
        have hD : s.brk ∉ D := fun hd => by
          have hlt : s.brk < s.brk := (h.gone _ hd).2.1
          exact absurd hlt (Nat.lt_irrefl _)
        have hz : pending s s.brk = 0 := by
          unfold pending
          rw [List.countP_eq_zero]
          intro d hd
          have hlt : d.1 < s.brk := (h.queued d hd).2
          simp only [decide_eq_true_eq]
          intro hd2
          rw [hd2] at hlt
          exact absurd hlt (Nat.lt_irrefl _)
        rw [b1, if_neg hD, hz]
        rfl
      · rw [b2 q hq]; exact h.count q h1 (show q < s.brk by omega)
    · intro q h1 h2 h3
      have h2 : q < s.brk + 1 := by rw [← b8]; exact h2
      have h3 : destroy_requested (s1.heap q) = false := h3
      show q ∈ s1.lookup (s1.heap q).element
      by_cases hq : q = s.brk
      · subst hq
        rw [b1, b5]
        exact List.mem_append_right _ (List.mem_singleton_self _)
      · rw [b2 q hq] at h3 ⊢
        exact hsub _ q (h.listed q h1 (show q < s.brk by omega) h3)
    · intro k q hq
      show 0 < q ∧ q < s1.brk ∧ (s1.heap q).element = k
        ∧ destroy_requested (s1.heap q) = false
      rcases hsplit k q hq with h1 | ⟨h1, h2⟩
      · obtain ⟨c1, c2, c3, c4⟩ := h.table k q h1
        have c2 : q < s.brk := c2
        rw [hold q c2]
        exact ⟨c1, by omega, c3, c4⟩
      · subst h1 h2
        refine ⟨h.brk_pos, by omega, ?_, hfresh⟩
        rw [b1]
    · intro k
      show (s1.lookup k).Nodup
      by_cases hk : k = el
      · subst hk
        rw [b5]
        apply List.Nodup.append (h.nodup k) (List.nodup_singleton _)
        intro q h1 h2
        rw [List.mem_singleton.mp h2] at h1
        have hlt : s.brk < s.brk := (h.table k _ h1).2.1
        exact absurd hlt (Nat.lt_irrefl _)
      · rw [b6 k hk]; exact h.nodup k
    · intro q hq
      obtain ⟨h1, h2, h3⟩ := h.gone q hq
      have h2 : q < s.brk := h2
      show 0 < q ∧ q < s1.brk ∧ destroy_requested (s1.heap q) = true
      rw [hold q h2]
      exact ⟨h1, by omega, h3⟩
    · intro d hd
      have hd : d ∈ s1.event_queue := hd
      rw [b7] at hd
      show 0 < d.1 ∧ d.1 < s1.brk
      have hb : d.1 < s.brk := (h.queued d hd).2
      exact ⟨(h.queued d hd).1, by omega⟩
    · intro q h1 h2 h3
      have h2 : q < s.brk + 1 := by rw [← b8]; exact h2
      have h3 : destroy_requested (s1.heap q) = false := h3
      show ((s1.heap q).callback ≠ 0 ∧ (s1.heap q).callback_ex = 0)
        ∨ ((s1.heap q).callback = 0 ∧ (s1.heap q).callback_ex ≠ 0)
      by_cases hq : q = s.brk
      · subst hq; rw [b1]; exact hcb
      · rw [b2 q hq] at h3 ⊢
        exact h.callbacks q h1 (show q < s.brk by omega) h3
    · intro q hq
      obtain ⟨h1, h2, h3⟩ := h.sticky q hq
      have h2 : q < s.brk := h2
      show 0 < q ∧ q < s1.brk ∧ destroy_requested (s1.heap q) = true
      rw [hold q h2]
      exact ⟨h1, by omega, h3⟩

/-! ## The drain loop of `sc_event_destroy` -/

theorem destroy_poll_spec (thread : Nat) (s : State) (p : Nat)
    (hlock : (s.heap p).thread_lock = 0) :
    ∃ s1 r, sc_event_destroy_poll thread s p = .ok (s1, r)
      ∧ (∀ q, s1.heap q = s.heap q) ∧ s1.brk = s.brk
      ∧ s1.events_table = s.events_table ∧ s1.event_queue = s.event_queue
      ∧ (r = true ↔ (s.heap p).ref_count = SC_EVENT_REQUEST_DESTROY)
      ∧ (r = false → s1.log = s.log)
      ∧ (r = true → s1.log = s.log
          ++ [Ext.sc_storage_element_unref (s.heap p).element]
          ++ (if (s.heap p).delete_callback ≠ 0
              then [Ext.delete_callback (s.heap p).delete_callback p] else [])
          ++ [Ext.g_free p]) := by
  have hun := (unlock_after_lock thread (s.heap p) hlock).2
  have hcell : ∀ (s2 : State) (q : Nat), s2.heap = (s.store p { s.heap p with thread_lock := thread }).heap →
      (s2.store p (s.heap p)).heap q = s.heap q := by
    intro s2 q h2
    by_cases hq : q = p
    · subst hq; rw [store_heap_self]
    · rw [store_heap_ne _ _ _ _ hq, h2, store_heap_ne _ _ _ _ hq]
  unfold sc_event_destroy_poll
  rw [lock_free thread (s.heap p) hlock]
  simp only [store_heap_self]
  by_cases hr : (s.heap p).ref_count = SC_EVENT_REQUEST_DESTROY
  · rw [if_pos hr]
    by_cases hdc : (s.heap p).delete_callback ≠ 0
    · simp only [if_pos hdc, store_heap_self, hun]
      refine ⟨_, true, rfl, ?_, rfl, rfl, rfl, ?_, ?_, ?_⟩
      · intro q
        exact hcell _ q rfl
      · exact ⟨fun _ => hr, fun _ => rfl⟩
      · intro h; exact Bool.noConfusion h
      · intro _; rfl
    · simp only [if_neg hdc, store_heap_self, hun]
      refine ⟨_, true, rfl, ?_, rfl, rfl, rfl, ?_, ?_, ?_⟩
      · intro q
        exact hcell _ q rfl
      · exact ⟨fun _ => hr, fun _ => rfl⟩
      · intro h; exact Bool.noConfusion h
      · intro _
        simp [State.store]
  · rw [if_neg hr]
    simp only [store_heap_self, hun]
    refine ⟨_, false, rfl, ?_, rfl, rfl, rfl, ?_, ?_, ?_⟩
    · intro q
      exact hcell _ q rfl
    · exact ⟨fun h => Bool.noConfusion h, fun h => absurd h hr⟩
    · intro _; rfl
    · intro h; exact Bool.noConfusion h

/-- A pass of the drain loop keeps the invariant. -/
theorem inv_destroy_poll (P : Nat → Prop) (thread : Nat) (s : State) (D : List Nat) (p : Nat)
    (h : Inv P ⟨s, D⟩) (hp : p ∈ D) :
    ∃ s1 r, sc_event_destroy_poll thread s p = .ok (s1, r) ∧ Inv P ⟨s1, D⟩ := by
  obtain ⟨hp0, hp1, _⟩ := h.gone p hp
  have hlock : (s.heap p).thread_lock = 0 := h.lock p hp0 hp1
  obtain ⟨s1, r, hrun, b1, b2, b3, b4, _⟩ := destroy_poll_spec thread s p hlock
  have hpend : ∀ q, pending s1 q = pending s q := by
    intro q; unfold pending; rw [b4]
  refine ⟨s1, r, hrun, ?_⟩
  exact inv_update P ⟨s, D⟩ ⟨s1, D⟩ p (s.heap p) h hp0 hp1 b2 b3 (b1 p) (fun q _ => b1 q)
    (fun q _ => Iff.rfl) (fun hd => (h.gone p hd).2.2) (fun q _ => hpend q)
    (fun d hd => h.queued d (by rw [← b4]; exact hd))
    hlock (h.range p hp0 hp1) (by rw [hpend]; exact h.count p hp0 hp1) rfl rfl ⟨rfl, rfl⟩

/-- The emit loop only appends deliveries for members of its list. -/
theorem emit_loop_filter (x : Extern) (thread el_access type edge other_el p : Nat)
    (l : List Nat) :
    ∀ s s1 : State, (∀ q ∈ l, q ≠ p) →
      emit_loop x thread el_access type edge other_el l s = .ok s1 →
      s1.event_queue.filter (fun d => d.1 = p) = s.event_queue.filter (fun d => d.1 = p) := by
  induction l with
  | nil =>
    intro s s1 _ hrun
    simp only [emit_loop] at hrun
    injection hrun with hrun
    rw [hrun]
  | cons q rest ih =>
    intro s s1 hl hrun
    have hq : q ≠ p := hl q (List.mem_cons_self q rest)
    have hrest : ∀ r ∈ rest, r ≠ p := fun r hr => hl r (List.mem_cons_of_mem q hr)
    rw [emit_loop] at hrun
    split at hrun
    · cases htry : s.try_emit thread q with
      | error f =>
        rw [htry] at hrun
        exact Except.noConfusion hrun
      | ok res =>
        obtain ⟨s2, b⟩ := res
        have hq2 : s2.event_queue = s.event_queue := by
          unfold State.try_emit at htry
          cases hte : _sc_event_try_emit thread (s.heap q) with
          | error f =>
            rw [hte] at htry
            exact Except.noConfusion htry
          | ok res2 =>
            rw [hte] at htry
            simp only at htry
            injection htry with htry
            injection htry with htry _
            rw [← htry]
            rfl
        rw [htry] at hrun
        cases b with
        | true =>
          simp only at hrun
          split at hrun
          · rw [ih _ s1 hrest hrun]
            show List.filter _ (s2.event_queue ++ [(q, edge, other_el)]) = _
            rw [List.filter_append, hq2]
            simp [hq]
          · exact Except.noConfusion hrun
        | false =>
          simp only at hrun
          rw [ih _ s1 hrest hrun, hq2]
    · exact ih s s1 hrest hrun

/-! ## Every step keeps the invariant -/

theorem emit_step_spec (P : Nat → Prop) (x : Extern) (s : State) (D : List Nat) (σ1 : Sys)
    (thread el el_access type edge other_el : Nat)
    (h : Inv P ⟨s, D⟩)
    (hs : step x ⟨s, D⟩ (.emit thread el el_access type edge other_el) = some σ1) :
    Inv P σ1
      ∧ (∀ q, destroy_requested (s.heap q) = true →
          σ1.st.heap q = s.heap q ∧ pending σ1.st q = pending s q) := by
  unfold step sc_event_emit at hs
  simp only at hs
  cases hel : SC_ADDR_IS_EMPTY el with
  | true =>
    rw [hel] at hs
    simp only [if_true] at hs
    exact Option.noConfusion hs
  | false =>
    rw [hel] at hs
    simp only [Bool.false_eq_true, if_false] at hs
    cases htab : s.events_table with
    | none =>
      rw [htab] at hs
      simp only [Option.some.injEq] at hs
      subst hs
      exact ⟨h, fun _ _ => ⟨rfl, rfl⟩⟩
    | some table =>
      rw [htab] at hs
      simp only at hs
      cases hloop : emit_loop x thread el_access type edge other_el
          (g_hash_table_lookup table el) s with
      | error f =>
        rw [hloop] at hs
        exact Option.noConfusion hs
      | ok s1 =>
        rw [hloop] at hs
        simp only [Option.some.injEq] at hs
        subst hs
        have hl : s.lookup el = g_hash_table_lookup table el := by
          unfold State.lookup; rw [htab]
        obtain ⟨h1, _, h3⟩ := inv_emit_loop P x thread el_access type edge other_el el D
          (g_hash_table_lookup table el) s s1 h (fun p hp => by rw [hl]; exact hp) hloop
        exact ⟨h1, h3⟩

theorem inv_step (P : Nat → Prop) (x : Extern) (σ σ1 : Sys) (a : Action)
    (h : Inv P σ) (hs : step x σ a = some σ1) : Inv P σ1 := by
  obtain ⟨s, D⟩ := σ
  cases a with
  | register ctx el type data callback delete_callback =>
    unfold step sc_event_new at hs
    by_cases hcb : callback = 0
    · simp only [hcb, if_true] at hs
      exact Option.noConfusion hs
    · have hinv := inv_new_body P x s D ctx el type data callback 0 delete_callback
        (Or.inl ⟨hcb, rfl⟩) h
      simp only [if_neg hcb, Option.some.injEq] at hs
      subst hs
      exact hinv
  | register_ex ctx el type data callback delete_callback =>
    unfold step sc_event_new_ex at hs
    by_cases hcb : callback = 0
    · simp only [hcb, if_true] at hs
      exact Option.noConfusion hs
    · have hinv := inv_new_body P x s D ctx el type data 0 callback delete_callback
        (Or.inr ⟨rfl, hcb⟩) h
      simp only [if_neg hcb, Option.some.injEq] at hs
      subst hs
      exact hinv
  | emit thread el el_access type edge other_el =>
    exact (emit_step_spec P x s D σ1 thread el el_access type edge other_el h hs).1
  | release thread i =>
    unfold step at hs
    simp only at hs
    cases hd : s.event_queue[i]? with
    | none =>
      rw [hd] at hs
      exact Option.noConfusion hs
    | some d =>
      rw [hd] at hs
      simp only at hs
      cases hrun : s.unref thread d.1 with
      | error f =>
        rw [hrun] at hs
        exact Option.noConfusion hs
      | ok res =>
        obtain ⟨s1, r⟩ := res
        rw [hrun] at hs
        simp only [Option.some.injEq] at hs
        subst hs
        exact (inv_release P s s1 D thread i d r h hd hrun).1
  | notify thread element =>
    unfold step at hs
    obtain ⟨s1, hrun, hinv⟩ := inv_notify P thread s D element h
    simp only [hrun, Option.some.injEq] at hs
    subst hs
    exact hinv
  | destroy_mark thread evt =>
    unfold step at hs
    simp only at hs
    by_cases hg : 0 < evt ∧ evt < s.brk ∧ evt ∉ D
    · obtain ⟨s1, hrun, hinv⟩ := inv_destroy_mark P thread s D evt h hg.1 hg.2.1 hg.2.2
      simp only [if_pos hg, hrun, Option.some.injEq] at hs
      subst hs
      exact hinv
    · rw [if_neg hg] at hs
      exact Option.noConfusion hs
  | destroy_poll thread evt =>
    unfold step at hs
    simp only at hs
    by_cases hg : evt ∈ D ∧ Ext.g_free evt ∉ s.log
    · obtain ⟨s1, r, hrun, hinv⟩ := inv_destroy_poll P thread s D evt h hg.1
      simp only [if_pos hg, hrun, Option.some.injEq] at hs
      subst hs
      exact hinv
    · rw [if_neg hg] at hs
      exact Option.noConfusion hs

theorem inv_run (P : Nat → Prop) (x : Extern) (acts : List Action) :
    ∀ σ σ1 : Sys, Inv P σ → run x σ acts = some σ1 → Inv P σ1 := by
  induction acts with
  | nil =>
    intro σ σ1 h hr
    simp only [run, Option.some.injEq] at hr
    subst hr
    exact h
  | cons a rest ih =>
    intro σ σ1 h hr
    simp only [run] at hr
    cases hs : step x σ a with
    | none =>
      rw [hs] at hr
      exact Option.noConfusion hr
    | some σ2 =>
      rw [hs] at hr
      exact ih σ2 σ1 (inv_step P x σ σ2 a h hs) hr

theorem inv_reachable (x : Extern) (acts : List Action) (σ : Sys)
    (hr : run x Sys.init acts = some σ) : Inv (fun _ => False) σ :=
  inv_run _ x acts Sys.init σ (inv_init _ (fun _ h => h)) hr

theorem inv_sticky (P Q : Nat → Prop) (σ : Sys) (h : Inv P σ)
    (hQ : ∀ p, Q p → 0 < p ∧ p < σ.st.brk ∧ destroy_requested (σ.st.heap p) = true) :
    Inv Q σ :=
  { brk_pos := h.brk_pos, lock := h.lock, range := h.range, count := h.count,
    listed := h.listed, table := h.table, nodup := h.nodup, gone := h.gone,
    queued := h.queued, callbacks := h.callbacks, sticky := hQ }

/-! ## Properties of every interleaving -/

/-- C3. In every interleaving of the atomic steps (registration, emit, release of
a delivery, element deletion, the first part and the drain loop of a destroy
run once per subscription), once the destroy-requested flag of a subscription
is set it is set in every later state, the subscription is in no list of the
table, and an emit taken from any later state leaves its record, hence its
`ref_count`, untouched and enqueues no delivery for it. -/
theorem destroy_requested_is_final (x : Extern) (acts1 acts2 : List Action) (σ1 σ2 : Sys)
    (p : Nat)
    (hr1 : run x Sys.init acts1 = some σ1)
    (hp0 : 0 < p) (hp1 : p < σ1.st.brk)
    (hflag : destroy_requested (σ1.st.heap p) = true)
    (hr2 : run x σ1 acts2 = some σ2) :
    destroy_requested (σ2.st.heap p) = true
    ∧ (∀ k, p ∉ σ2.st.lookup k)
    ∧ (∀ (thread el el_access type edge other_el : Nat) (σ3 : Sys),
        step x σ2 (.emit thread el el_access type edge other_el) = some σ3 →
        σ3.st.heap p = σ2.st.heap p
          ∧ σ3.st.event_queue.filter (fun d => d.1 = p)
              = σ2.st.event_queue.filter (fun d => d.1 = p)
          ∧ pending σ3.st p = pending σ2.st p) := by
  have h1 : Inv (fun q => q = p) σ1 :=
    inv_sticky _ _ σ1 (inv_reachable x acts1 σ1 hr1) (fun q hq => by
      subst hq; exact ⟨hp0, hp1, hflag⟩)
  have h2 := inv_run _ x acts2 σ1 σ2 h1 hr2
  have hf : destroy_requested (σ2.st.heap p) = true := (h2.sticky p rfl).2.2
  refine ⟨hf, ?_, ?_⟩
  · intro k hk
    have := (h2.table k p hk).2.2.2
    rw [hf] at this
    exact Bool.noConfusion this
  · intro thread el el_access type edge other_el σ3 hs
    obtain ⟨s, D⟩ := σ2
    have hspec := (emit_step_spec _ x s D σ3 thread el el_access type edge other_el h2 hs).2 p hf
    refine ⟨hspec.1, ?_, hspec.2⟩
    -- an emit only appends to the queue, and what it appends is not for `p`
    unfold step sc_event_emit at hs
    simp only at hs
    cases hel : SC_ADDR_IS_EMPTY el with
    | true =>
      rw [hel] at hs
      simp only [if_true] at hs
      exact Option.noConfusion hs
    | false =>
      rw [hel] at hs
      simp only [Bool.false_eq_true, if_false] at hs
      cases htab : s.events_table with
      | none =>
        rw [htab] at hs
        simp only [Option.some.injEq] at hs
        subst hs
        rfl
      | some table =>
        rw [htab] at hs
        simp only at hs
        cases hloop : emit_loop x thread el_access type edge other_el
            (g_hash_table_lookup table el) s with
        | error f =>
          rw [hloop] at hs
          exact Option.noConfusion hs
        | ok s1 =>
          rw [hloop] at hs
          simp only [Option.some.injEq] at hs
          subst hs
          have hl : s.lookup el = g_hash_table_lookup table el := by
            unfold State.lookup; rw [htab]
          exact emit_loop_filter x thread el_access type edge other_el p
            (g_hash_table_lookup table el) s s1
            (fun q hq hqp => by
              rw [← hl] at hq
              have := (h2.table el q hq).2.2.2
              rw [hqp] at this
              have hf2 : destroy_requested (s.heap p) = true := hf
              rw [hf2] at this
              exact Bool.noConfusion this) hloop

/-- Witness for C3: after the first four steps of `demo_acts` the subscription at
address 1 is marked, and it is still marked after the remaining two. -/
theorem destroy_requested_is_final_witness :
    run X_open Sys.init demo_acts_marked = some (run_result X_open demo_acts_marked)
    ∧ destroy_requested ((run_result X_open demo_acts_marked).st.heap 1) = true
    ∧ run X_open (run_result X_open demo_acts_marked) (demo_acts.drop 4)
        = some (run_result X_open demo_acts)
    ∧ destroy_requested ((run_result X_open demo_acts).st.heap 1) = true :=
  ⟨rfl, by decide, rfl,
    (destroy_requested_is_final X_open demo_acts_marked (demo_acts.drop 4)
      (run_result X_open demo_acts_marked) (run_result X_open demo_acts) 1
      rfl (by decide) (by decide) (by decide) rfl).1⟩

/-- C5. In every state reached from the empty registry by the atomic steps, a
subscription is in the list of its element if and only if its destroy-requested
flag is unset, and it is in the list of no other element. -/
theorem registered_iff_not_destroy_requested (x : Extern) (acts : List Action) (σ : Sys)
    (p : Nat)
    (hr : run x Sys.init acts = some σ) (hp0 : 0 < p) (hp1 : p < σ.st.brk) :
    (p ∈ σ.st.lookup (σ.st.heap p).element ↔ destroy_requested (σ.st.heap p) = false)
    ∧ (∀ k, p ∈ σ.st.lookup k → k = (σ.st.heap p).element) := by
  have h := inv_reachable x acts σ hr
  refine ⟨⟨fun hin => (h.table _ p hin).2.2.2, h.listed p hp0 hp1⟩, ?_⟩
  intro k hk
  exact (h.table k p hk).2.2.1.symm

/-- Witness for C5: at the end of `demo_acts` the destroyed subscription 1 has left
the list of element 5 and the subscription 2 is still in it. -/
theorem registered_iff_not_destroy_requested_witness :
    run X_open Sys.init demo_acts = some (run_result X_open demo_acts)
    ∧ (run_result X_open demo_acts).st.lookup 5 = [2]
    ∧ (2 ∈ (run_result X_open demo_acts).st.lookup
          ((run_result X_open demo_acts).st.heap 2).element
        ↔ destroy_requested ((run_result X_open demo_acts).st.heap 2) = false) :=
  ⟨rfl, rfl,
    (registered_iff_not_destroy_requested X_open demo_acts (run_result X_open demo_acts) 2
      rfl (by decide) (by decide)).1⟩

/-- C6. In every state reached from the empty registry by the atomic steps, the
`ref_count` of a subscription is a 32-bit value whose live count equals 1 while
the implicit reference is held (0 once the destroy released it) plus the number
of deliveries enqueued and not yet released, as natural numbers; its value is
`SC_EVENT_REQUEST_DESTROY` exactly when the destroy released the implicit
reference and no delivery is outstanding, and a pass of the drain loop leaves
the loop exactly then. -/
theorem ref_count_accounting (x : Extern) (acts : List Action) (σ : Sys) (p : Nat)
    (hr : run x Sys.init acts = some σ) (hp0 : 0 < p) (hp1 : p < σ.st.brk) :
    (σ.st.heap p).ref_count < 2 ^ 32
    ∧ live_count (σ.st.heap p) = (if p ∈ σ.destroyed then 0 else 1) + pending σ.st p
    ∧ ((σ.st.heap p).ref_count = SC_EVENT_REQUEST_DESTROY
        ↔ p ∈ σ.destroyed ∧ pending σ.st p = 0)
    ∧ (∀ thread, ∃ s1 r, sc_event_destroy_poll thread σ.st p = .ok (s1, r)
        ∧ (r = true ↔ p ∈ σ.destroyed ∧ pending σ.st p = 0)) := by
  have h := inv_reachable x acts σ hr
  have hrange : (σ.st.heap p).ref_count < 2 ^ 32 := h.range p hp0 hp1
  have hcount := h.count p hp0 hp1
  have hiff : (σ.st.heap p).ref_count = SC_EVENT_REQUEST_DESTROY
      ↔ p ∈ σ.destroyed ∧ pending σ.st p = 0 := by
    have hF : SC_EVENT_REQUEST_DESTROY = 2 ^ 31 := rfl
    rw [hF]
    constructor
    · intro heq
      by_cases hd : p ∈ σ.destroyed
      · rw [if_pos hd] at hcount
        exact ⟨hd, by omega⟩
      · rw [if_neg hd] at hcount
        omega
    · intro ⟨hd, hz⟩
      rw [if_pos hd, hz] at hcount
      have hge := (destroy_requested_iff_ge _ hrange).mp (h.gone p hd).2.2
      omega
  refine ⟨hrange, ?_, hiff, ?_⟩
  · rw [live_count_eq_mod]
    exact hcount
  · intro thread
    obtain ⟨s1, r, hrun, _, _, _, _, hr2, _⟩ :=
      destroy_poll_spec thread σ.st p (h.lock p hp0 hp1)
    exact ⟨s1, r, hrun, hr2.trans hiff⟩

/-- Witness for C6: after the first four steps of `demo_acts` the subscription 1
has given up its implicit reference and has one delivery outstanding, so its
live count is 1. -/
theorem ref_count_accounting_witness :
    run X_open Sys.init demo_acts_marked = some (run_result X_open demo_acts_marked)
    ∧ 1 ∈ (run_result X_open demo_acts_marked).destroyed
    ∧ pending (run_result X_open demo_acts_marked).st 1 = 1
    ∧ live_count ((run_result X_open demo_acts_marked).st.heap 1) = 1 := by
  refine ⟨rfl, by decide, by decide, ?_⟩
  rw [(ref_count_accounting X_open demo_acts_marked (run_result X_open demo_acts_marked) 1
    rfl (by decide) (by decide)).2.1]
  decide

/-! ## A second run of the first part of `sc_event_destroy` -/

/-- C11 (as amended). On a subscription whose destroy-requested flag is already
set (lock free, 32-bit `ref_count`), the part of `sc_event_destroy` before the
drain loop goes on to the drain loop, removes nothing from the table, leaves the
queue, the log, every other subscription and the callback slots as they were,
and subtracts one from `ref_count`: when the live count is at least 1 the flag
stays set and the live count drops by exactly one. -/
theorem destroy_mark_on_marked (thread : Nat) (s : State) (p : Nat)
    (hlock : (s.heap p).thread_lock = 0) (hrange : (s.heap p).ref_count < 2 ^ 32)
    (hd : destroy_requested (s.heap p) = true) :
    ∃ s1, sc_event_destroy_mark thread s p = .ok (s1, none)
      ∧ s1.events_table = s.events_table ∧ s1.event_queue = s.event_queue ∧ s1.log = s.log
      ∧ (∀ q, q ≠ p → s1.heap q = s.heap q)
      ∧ s1.heap p
          = { s.heap p with ref_count := ((s.heap p).ref_count + 2 ^ 32 - 1) % 2 ^ 32 }
      ∧ (s1.heap p).callback = (s.heap p).callback
      ∧ (s1.heap p).callback_ex = (s.heap p).callback_ex
      ∧ (s1.heap p).delete_callback = (s.heap p).delete_callback
      ∧ (1 ≤ live_count (s.heap p) →
          destroy_requested (s1.heap p) = true
            ∧ live_count (s1.heap p) + 1 = live_count (s.heap p)) := by
  refine ⟨_, destroy_mark_flagged_eq thread s p hlock hd, rfl, rfl, rfl,
    fun q hq => store_heap_ne s p q _ hq, store_heap_self s p _, ?_, ?_, ?_, ?_⟩
  · rw [store_heap_self]
  · rw [store_heap_self]
  · rw [store_heap_self]
  · intro hlive
    rw [store_heap_self]
    rw [live_count_eq_mod] at hlive
    obtain ⟨a1, a2, a3⟩ := dec_arith (s.heap p).ref_count 0 ((s.heap p).ref_count % 2 ^ 31)
      ((s.heap p).ref_count % 2 ^ 31 - 1) hrange (by omega) (by omega) (by omega)
    have hflag : destroy_requested
        { s.heap p with ref_count := ((s.heap p).ref_count + 2 ^ 32 - 1) % 2 ^ 32 }
        = destroy_requested (s.heap p) :=
      flag_eq_of_ge_iff _ _ a1 hrange a3
    refine ⟨hflag.trans hd, ?_⟩
    rw [live_count_eq_mod, live_count_eq_mod]
    show ((s.heap p).ref_count + 2 ^ 32 - 1) % 2 ^ 32 % 2 ^ 31 + 1 = _
    omega

/-- Witness for C11: after the first four steps of `demo_acts` the subscription 1 is
marked with live count 1; the first part of `sc_event_destroy` run on it again
leaves the table alone and brings the live count to 0. -/
theorem destroy_mark_on_marked_witness :
    ((run_result X_open demo_acts_marked).st.heap 1).thread_lock = 0
    ∧ destroy_requested ((run_result X_open demo_acts_marked).st.heap 1) = true
    ∧ ∃ s1, sc_event_destroy_mark 3 (run_result X_open demo_acts_marked).st 1 = .ok (s1, none)
        ∧ s1.events_table = (run_result X_open demo_acts_marked).st.events_table
        ∧ destroy_requested (s1.heap 1) = true := by
  obtain ⟨s1, h1, h2, _, _, _, _, _, _, _, h10⟩ :=
    destroy_mark_on_marked 3 (run_result X_open demo_acts_marked).st 1 rfl (by decide) (by decide)
  exact ⟨rfl, by decide, s1, h1, h2, (h10 (by decide)).1⟩

/-- Counterexample to C11 as stated: after the first four steps of `demo_acts` the
subscription 1 is marked, one delivery of it is still in the queue and its live
count is 1; running the first part of `sc_event_destroy` on it again brings the
live count to 0 while the delivery is still outstanding. -/
theorem destroy_mark_on_marked_counterexample :
    destroy_requested ((run_result X_open demo_acts_marked).st.heap 1) = true
    ∧ pending (run_result X_open demo_acts_marked).st 1 = 1
    ∧ live_count ((run_result X_open demo_acts_marked).st.heap 1) = 1
    ∧ ∃ s1, sc_event_destroy_mark 3 (run_result X_open demo_acts_marked).st 1 = .ok (s1, none)
        ∧ pending s1 1 = 1 ∧ live_count (s1.heap 1) = 0 :=
  ⟨by decide, by decide, by decide, _, rfl, by decide, by decide⟩

/-! ## `sc_event_destroy` on a subscription that is not in the table -/

theorem remove_event_from_table_no_list (s : State) (p : Nat) (t : GHashTable)
    (htab : s.events_table = some t) (hnil : s.lookup (s.heap p).element = []) :
    remove_event_from_table s p = .ok (s, .SC_RESULT_ERROR_INVALID_PARAMS) := by
  unfold remove_event_from_table
  have hl : g_hash_table_lookup t (s.heap p).element = [] := by
    unfold State.lookup at hnil
    rw [htab] at hnil
    exact hnil
  rw [htab]
  simp only [hl, if_true]

theorem remove_event_from_table_no_table (s : State) (p : Nat) (htab : s.events_table = none) :
    remove_event_from_table s p = .error .assertion := by
  unfold remove_event_from_table
  rw [htab]

theorem destroy_mark_unregistered (thread : Nat) (s : State) (p : Nat) (t : GHashTable)
    (hlock : (s.heap p).thread_lock = 0) (hd : destroy_requested (s.heap p) = false)
    (htab : s.events_table = some t) (hnil : s.lookup (s.heap p).element = []) :
    sc_event_destroy_mark thread s p = .ok (s, some .SC_RESULT_ERROR) := by
  unfold sc_event_destroy_mark
  rw [lock_free thread (s.heap p) hlock]
  simp only [store_heap_self, destroy_requested_lock, hd, Bool.false_eq_true, if_false]
  rw [remove_event_from_table_heap s p { s.heap p with thread_lock := thread } rfl,
    remove_event_from_table_no_list s p t htab hnil]
  simp only [ne_eq, reduceCtorEq, not_false_eq_true, if_true, store_heap_self,
    (unlock_after_lock thread (s.heap p) hlock).2, store_store, store_self]

theorem destroy_mark_no_table (thread : Nat) (s : State) (p : Nat)
    (hlock : (s.heap p).thread_lock = 0) (hd : destroy_requested (s.heap p) = false)
    (htab : s.events_table = none) :
    sc_event_destroy_mark thread s p = .error .assertion := by
  unfold sc_event_destroy_mark
  rw [lock_free thread (s.heap p) hlock]
  simp only [store_heap_self, destroy_requested_lock, hd, Bool.false_eq_true, if_false]
  rw [remove_event_from_table_heap s p { s.heap p with thread_lock := thread } rfl,
    remove_event_from_table_no_table s p htab]

/-- C14 (as amended). For a subscription with the flag unset and the lock free:
when the table exists and holds no list for the element of the subscription,
`remove_event_from_table` fails and `sc_event_destroy` returns
`SC_RESULT_ERROR` with the whole state, the subscription included, exactly as it
was (flag unset, `ref_count`, callbacks and delete callback intact, lock free,
no call to the storage, nothing freed); when the table does not exist, the
assertion of `remove_event_from_table` stops the call instead. -/
theorem destroy_of_unregistered (fuel thread : Nat) (s : State) (p : Nat)
    (hlock : (s.heap p).thread_lock = 0) (hd : destroy_requested (s.heap p) = false) :
    (∀ t, s.events_table = some t → s.lookup (s.heap p).element = [] →
        sc_event_destroy fuel thread s p = .ok (s, some .SC_RESULT_ERROR))
    ∧ (s.events_table = none → sc_event_destroy fuel thread s p = .error .assertion) := by
  constructor
  · intro t htab hnil
    unfold sc_event_destroy
    rw [destroy_mark_unregistered thread s p t hlock hd htab hnil]
  · intro htab
    unfold sc_event_destroy
    rw [destroy_mark_no_table thread s p hlock hd htab]

/-- Witness for C14: the record at address 2 of `s_two`, with an existing table
that has no entry. -/
theorem destroy_of_unregistered_witness :
    (({ s_two with events_table := some [] } : State).heap 2).thread_lock = 0
    ∧ destroy_requested (({ s_two with events_table := some [] } : State).heap 2) = false
    ∧ sc_event_destroy 5 3 { s_two with events_table := some [] } 2
        = .ok ({ s_two with events_table := some [] }, some .SC_RESULT_ERROR) :=
  ⟨rfl, by decide,
    (destroy_of_unregistered 5 3 { s_two with events_table := some [] } 2 rfl (by decide)).1
      [] rfl rfl⟩

/-- Counterexample to C14 as stated: with no table at all, `sc_event_destroy` on the
unregistered record at address 2 does not return an error result; the assertion
`events_table != null_ptr` of `remove_event_from_table` fails. -/
theorem destroy_of_unregistered_counterexample :
    ({ s_two with events_table := none } : State).events_table = none
    ∧ 2 ∉ ({ s_two with events_table := none } : State).lookup 5
    ∧ destroy_requested (({ s_two with events_table := none } : State).heap 2) = false
    ∧ sc_event_destroy 5 3 { s_two with events_table := none } 2 = .error .assertion :=
  ⟨rfl, by decide, by decide, rfl⟩

/-! ## Insertion followed by removal -/

theorem insert_event_into_table_spec (s : State) (event : Nat) :
    (insert_event_into_table s event).2 = .SC_RESULT_OK
    ∧ (insert_event_into_table s event).1.heap = s.heap
    ∧ (insert_event_into_table s event).1.brk = s.brk
    ∧ (insert_event_into_table s event).1.event_queue = s.event_queue
    ∧ (insert_event_into_table s event).1.log = s.log
    ∧ (insert_event_into_table s event).1.events_table ≠ none
    ∧ (∀ k, (insert_event_into_table s event).1.lookup k
        = if k = (s.heap event).element then s.lookup k ++ [event] else s.lookup k) := by
  refine ⟨rfl, rfl, rfl, rfl, rfl, ?_, ?_⟩
  · unfold insert_event_into_table
    simp
  · intro k
    unfold insert_event_into_table State.lookup g_slist_append
    by_cases hk : k = (s.heap event).element
    · subst hk
      rw [if_pos rfl]
      cases s.events_table <;> simp [lookup_insert_self, g_hash_table_lookup]
    · rw [if_neg hk]
      have hk2 : ¬ (s.heap event).element = k := fun h => hk h.symm
      cases s.events_table <;>
        simp [lookup_insert_ne _ _ _ _ hk, g_hash_table_lookup, g_hash_table_insert, hk2]

/-- C18. For a subscription that is not in the list of its element,
`insert_event_into_table` followed by `remove_event_from_table` returns
`SC_RESULT_OK` both times and every element is mapped to the same list, in the
same order, as before (an absent table counts as the mapping with no entries);
nothing else of the state changes. -/
theorem insert_then_remove (s : State) (event : Nat)
    (hnew : event ∉ s.lookup (s.heap event).element) :
    (insert_event_into_table s event).2 = .SC_RESULT_OK
    ∧ ∃ s2, remove_event_from_table (insert_event_into_table s event).1 event
          = .ok (s2, .SC_RESULT_OK)
        ∧ (∀ k, s2.lookup k = s.lookup k)
        ∧ s2.heap = s.heap ∧ s2.brk = s.brk ∧ s2.event_queue = s.event_queue
        ∧ s2.log = s.log := by
  obtain ⟨a1, a2, a3, a4, a5, _, a7⟩ := insert_event_into_table_spec s event
  refine ⟨a1, ?_⟩
  have hkey : ((insert_event_into_table s event).1.heap event).element
      = (s.heap event).element := by rw [a2]
  have hne : (insert_event_into_table s event).1.lookup
      ((insert_event_into_table s event).1.heap event).element ≠ [] := by
    rw [hkey, a7, if_pos rfl]
    simp
  obtain ⟨s2, hrem, b1, b2, b3, b4, b5⟩ :=
    remove_event_from_table_spec (insert_event_into_table s event).1 event hne
  refine ⟨s2, hrem, ?_, b1.trans a2, b2.trans a3, b3.trans a4, b4.trans a5⟩
  intro k
  rw [b5 k, hkey, a7 k]
  by_cases hk : k = (s.heap event).element
  · subst hk
    rw [if_pos rfl, if_pos rfl, List.erase_append_right _ hnew]
    simp
  · rw [if_neg hk, if_neg hk]

/-- Witness for C18: the unregistered record at address 2 of `s_two` is inserted
behind the subscription 1 and removed again. -/
theorem insert_then_remove_witness :
    2 ∉ s_two.lookup (s_two.heap 2).element
    ∧ (insert_event_into_table s_two 2).1.lookup 5 = [1, 2]
    ∧ ∃ s2, remove_event_from_table (insert_event_into_table s_two 2).1 2
          = .ok (s2, .SC_RESULT_OK)
        ∧ s2.lookup 5 = [1] := by
  obtain ⟨s2, h1, h2, _⟩ := (insert_then_remove s_two 2 (by decide)).2
  exact ⟨by decide, rfl, s2, h1, by rw [h2 5]; rfl⟩

/-! ## The table after an element was deleted -/

/-- C16. A subscription is registered on element 5 in the empty registry and the
element is deleted: `sc_event_notify_element_deleted` leaves a table that
exists and has no key, so no subscription is registered in it. When the same
subscription is destroyed instead, `remove_event_from_table` deletes the table
that became empty. -/
theorem notify_leaves_empty_table :
    ∃ s1, sc_event_new X_open State.init ⟨1, 3⟩ 5 1 0 7 9 = .ok (s1, some 1)
      ∧ s1.events_table = some [(5, [1])]
      ∧ (∃ s2, sc_event_notify_element_deleted 4 s1 5 = .ok (s2, .SC_RESULT_OK)
          ∧ s2.events_table = some [])
      ∧ (∃ s3, sc_event_destroy_mark 3 s1 1 = .ok (s3, none)
          ∧ s3.events_table = none) :=
  ⟨_, rfl, rfl, ⟨_, rfl, rfl⟩, ⟨_, rfl, rfl⟩⟩

/-! ## The callback assertion of `sc_event_emit` -/

/-- C19. In every state reached from the empty registry by the atomic steps, every
subscription whose destroy-requested flag is unset has exactly one non-null
callback slot, so every subscription found in a list of the table has a
callback; an emit on a non-empty element then returns `SC_RESULT_OK` unless a
subscription it claims has reached `SC_EVENT_REF_COUNT_MASK`: the assertion on
the callback slots never stops it. -/
theorem callback_assertion_holds (x : Extern) (acts : List Action) (σ : Sys)
    (hr : run x Sys.init acts = some σ) :
    (∀ p, 0 < p → p < σ.st.brk → destroy_requested (σ.st.heap p) = false →
        ((σ.st.heap p).callback ≠ 0 ∧ (σ.st.heap p).callback_ex = 0)
          ∨ ((σ.st.heap p).callback = 0 ∧ (σ.st.heap p).callback_ex ≠ 0))
    ∧ (∀ k p, p ∈ σ.st.lookup k →
        (σ.st.heap p).callback ≠ 0 ∨ (σ.st.heap p).callback_ex ≠ 0)
    ∧ (∀ thread el el_access type edge other_el,
        SC_ADDR_IS_EMPTY el = false →
        (∀ p ∈ σ.st.lookup el, emit_claims x σ.st el_access type p = true →
          (σ.st.heap p).ref_count < SC_EVENT_REF_COUNT_MASK) →
        ∃ s1, sc_event_emit x thread σ.st el el_access type edge other_el
          = .ok (s1, .SC_RESULT_OK)) := by
  have h := inv_reachable x acts σ hr
  have hcb : ∀ k p, p ∈ σ.st.lookup k →
      (σ.st.heap p).callback ≠ 0 ∨ (σ.st.heap p).callback_ex ≠ 0 := by
    intro k p hp
    obtain ⟨h1, h2, _, h4⟩ := h.table k p hp
    rcases h.callbacks p h1 h2 h4 with c | c
    · exact Or.inl c.1
    · exact Or.inr c.2
  refine ⟨h.callbacks, hcb, ?_⟩
  intro thread el el_access type edge other_el hel hcount
  unfold sc_event_emit
  rw [hel]
  simp only [Bool.false_eq_true, if_false]
  cases htab : σ.st.events_table with
  | none => exact ⟨_, rfl⟩
  | some table =>
    have hl : σ.st.lookup el = g_hash_table_lookup table el := by
      unfold State.lookup; rw [htab]
    obtain ⟨s1, h1, _⟩ := emit_loop_spec x thread el_access type edge other_el
      (g_hash_table_lookup table el) σ.st
      (by rw [← hl]; exact h.nodup el)
      (fun p hp => by
        rw [← hl] at hp
        exact h.lock p (h.table el p hp).1 (h.table el p hp).2.1)
      (fun p hp hc => by
        rw [← hl] at hp
        exact ⟨hcount p hp hc, hcb el p hp⟩)
    exact ⟨s1, by simp only [h1]⟩

/-- Witness for C19: at the end of `demo_acts` the subscription 2 is unmarked and
holds its callback in the slot `callback_ex` only. -/
theorem callback_assertion_holds_witness :
    run X_open Sys.init demo_acts = some (run_result X_open demo_acts)
    ∧ destroy_requested ((run_result X_open demo_acts).st.heap 2) = false
    ∧ ((run_result X_open demo_acts).st.heap 2).callback = 0
    ∧ ((run_result X_open demo_acts).st.heap 2).callback_ex ≠ 0 := by
  rcases (callback_assertion_holds X_open demo_acts (run_result X_open demo_acts) rfl).1
    2 (by decide) (by decide) (by decide) with h | h
  · exact absurd rfl h.1
  · exact ⟨rfl, by decide, h.1, h.2⟩

/-! ## Releasing the lock -/

/-- C15 (as amended). `sc_event_unlock` logs a critical message exactly when the
caller is not the recorded owner, returns in every case, changes no field other
than `thread_lock`, and leaves `thread_lock` at 0: called by the owner it sets
the lock to unowned without a message. -/
theorem sc_event_unlock_contract (thread : Nat) (evt : sc_event) :
    ((sc_event_unlock thread evt).1 = true ↔ evt.thread_lock ≠ thread)
    ∧ (sc_event_unlock thread evt).2 = { evt with thread_lock := 0 }
    ∧ (sc_event_unlock thread evt).2.thread_lock = 0
    ∧ (sc_event_unlock evt.thread_lock evt).1 = false := by
  unfold sc_event_unlock
  refine ⟨?_, rfl, rfl, ?_⟩
  · simp
  · simp

/-- Counterexample to C15 as stated: the lock of the record is owned by thread 5
and thread 7 calls `sc_event_unlock`; the call logs the critical message and
returns with the lock unowned, so the recorded owner did change. -/
theorem sc_event_unlock_counterexample :
    ({ g_new0 with thread_lock := 5 } : sc_event).thread_lock = 5
    ∧ (sc_event_unlock 7 { g_new0 with thread_lock := 5 }).1 = true
    ∧ (sc_event_unlock 7 { g_new0 with thread_lock := 5 }).2.thread_lock = 0
    ∧ (sc_event_unlock 7 { g_new0 with thread_lock := 5 }).2.thread_lock ≠ 5 :=
  ⟨rfl, by decide, rfl, by decide⟩

end ScEvent

namespace Waiting

/-! ## Deliveries to a condition waiter -/

theorem deliver_spec (c : ScWaitCondition) (ds : List (Nat × Nat × Nat)) :
    (c.deliver ds).1 = ds.map (fun d => c.m_checkFunc d.1 d.2.1 d.2.2)
    ∧ (c.deliver ds).2.base.m_waiterImpl.m_isResolved
        = (c.base.m_waiterImpl.m_isResolved
            || ds.any (fun d => c.m_checkFunc d.1 d.2.1 d.2.2)) := by
  induction ds generalizing c with
  | nil => simp [ScWaitCondition.deliver]
  | cons d rest ih =>
    have hf : (c.OnEvent d.1 d.2.1 d.2.2).2.m_checkFunc = c.m_checkFunc := rfl
    have h1 : (c.OnEvent d.1 d.2.1 d.2.2).1 = c.m_checkFunc d.1 d.2.1 d.2.2 := by
      unfold ScWaitCondition.OnEvent ScWaitEvent.OnEvent ScWaitCondition.OnEventImpl
      cases c.m_checkFunc d.1 d.2.1 d.2.2 <;> rfl
    have h2 : (c.OnEvent d.1 d.2.1 d.2.2).2.base.m_waiterImpl.m_isResolved
        = (c.base.m_waiterImpl.m_isResolved || c.m_checkFunc d.1 d.2.1 d.2.2) := by
      unfold ScWaitCondition.OnEvent ScWaitEvent.OnEvent ScWaitCondition.OnEventImpl
      cases c.m_checkFunc d.1 d.2.1 d.2.2 <;>
        simp [ScWait.Resolve, WaiterImpl.Resolve]
    obtain ⟨i1, i2⟩ := ih (c.OnEvent d.1 d.2.1 d.2.2).2
    rw [hf] at i1 i2
    constructor
    · show (c.OnEvent d.1 d.2.1 d.2.2).1
          :: ((c.OnEvent d.1 d.2.1 d.2.2).2.deliver rest).1 = _
      rw [i1, h1]
      rfl
    · show ((c.OnEvent d.1 d.2.1 d.2.2).2.deliver rest).2.base.m_waiterImpl.m_isResolved = _
      rw [i2, h2, List.any_cons, Bool.or_assoc]

theorem cpp_deliver_spec (c : cpp.ScWaitCondition) (ds : List (Nat × Nat × Nat)) :
    (c.deliver ds).1 = ds.map (fun d => c.mCheckFunc d.1 d.2.1 d.2.2)
    ∧ (c.deliver ds).2.base.mWaiterImpl.m_isResolved
        = (c.base.mWaiterImpl.m_isResolved
            || ds.any (fun d => c.mCheckFunc d.1 d.2.1 d.2.2)) := by
  induction ds generalizing c with
  | nil => simp [cpp.ScWaitCondition.deliver]
  | cons d rest ih =>
    have hf : (c.OnEvent d.1 d.2.1 d.2.2).2.mCheckFunc = c.mCheckFunc := rfl
    have h1 : (c.OnEvent d.1 d.2.1 d.2.2).1 = c.mCheckFunc d.1 d.2.1 d.2.2 := by
      unfold cpp.ScWaitCondition.OnEvent cpp.ScWait.OnEvent cpp.ScWaitCondition.OnEventImpl
      cases c.mCheckFunc d.1 d.2.1 d.2.2 <;> rfl
    have h2 : (c.OnEvent d.1 d.2.1 d.2.2).2.base.mWaiterImpl.m_isResolved
        = (c.base.mWaiterImpl.m_isResolved || c.mCheckFunc d.1 d.2.1 d.2.2) := by
      unfold cpp.ScWaitCondition.OnEvent cpp.ScWait.OnEvent cpp.ScWaitCondition.OnEventImpl
      cases c.mCheckFunc d.1 d.2.1 d.2.2 <;>
        simp [WaiterImpl.Resolve]
    obtain ⟨i1, i2⟩ := ih (c.OnEvent d.1 d.2.1 d.2.2).2
    rw [hf] at i1 i2
    constructor
    · show (c.OnEvent d.1 d.2.1 d.2.2).1
          :: ((c.OnEvent d.1 d.2.1 d.2.2).2.deliver rest).1 = _
      rw [i1, h1]
      rfl
    · show ((c.OnEvent d.1 d.2.1 d.2.2).2.deliver rest).2.base.mWaiterImpl.m_isResolved = _
      rw [i2, h2, List.any_cons, Bool.or_assoc]

/-- C12. For every check function and every list of deliveries to a fresh
condition waiter, in both versions of the header: the result reported for each
delivery is the value of the check function on its `(listenAddr, edgeAddr,
otherAddr)`; after the first `n` deliveries the waiter is resolved if and only
if the check function was true on one of them; a check function that is always
false never resolves it; and one that is false on the first two deliveries and
true on the third reports false, false, true and resolves the waiter at the
third delivery, not before. -/
theorem condition_waiter_deliveries (f : Nat → Nat → Nat → Bool)
    (ds : List (Nat × Nat × Nat)) (n : Nat) :
    ((ScWaitCondition.init f).deliver ds).1 = ds.map (fun d => f d.1 d.2.1 d.2.2)
    ∧ (((ScWaitCondition.init f).deliver (ds.take n)).2.base.m_waiterImpl.m_isResolved = true
        ↔ ∃ d ∈ ds.take n, f d.1 d.2.1 d.2.2 = true)
    ∧ ((cpp.ScWaitCondition.init f).deliver ds).1 = ds.map (fun d => f d.1 d.2.1 d.2.2)
    ∧ (((cpp.ScWaitCondition.init f).deliver (ds.take n)).2.base.mWaiterImpl.m_isResolved = true
        ↔ ∃ d ∈ ds.take n, f d.1 d.2.1 d.2.2 = true)
    ∧ ((∀ a b c, f a b c = false) →
        ((ScWaitCondition.init f).deliver ds).2.base.m_waiterImpl.m_isResolved = false
          ∧ ((cpp.ScWaitCondition.init f).deliver ds).2.base.mWaiterImpl.m_isResolved = false)
    ∧ (∀ d1 d2 d3 : Nat × Nat × Nat,
        f d1.1 d1.2.1 d1.2.2 = false → f d2.1 d2.2.1 d2.2.2 = false →
        f d3.1 d3.2.1 d3.2.2 = true →
        ((ScWaitCondition.init f).deliver [d1, d2, d3]).1 = [false, false, true]
          ∧ ((ScWaitCondition.init f).deliver [d1, d2]).2.base.m_waiterImpl.m_isResolved = false
          ∧ ((ScWaitCondition.init f).deliver [d1, d2, d3]).2.base.m_waiterImpl.m_isResolved
              = true
          ∧ ((cpp.ScWaitCondition.init f).deliver [d1, d2, d3]).1 = [false, false, true]
          ∧ ((cpp.ScWaitCondition.init f).deliver [d1, d2]).2.base.mWaiterImpl.m_isResolved
              = false
          ∧ ((cpp.ScWaitCondition.init f).deliver [d1, d2, d3]).2.base.mWaiterImpl.m_isResolved
              = true) := by
  have hinit : (ScWaitCondition.init f).base.m_waiterImpl.m_isResolved = false := rfl
  have hinit2 : (cpp.ScWaitCondition.init f).base.mWaiterImpl.m_isResolved = false := rfl
  have hf : (ScWaitCondition.init f).m_checkFunc = f := rfl
  have hf2 : (cpp.ScWaitCondition.init f).mCheckFunc = f := rfl
  have hres : ∀ l : List (Nat × Nat × Nat),
      ((ScWaitCondition.init f).deliver l).2.base.m_waiterImpl.m_isResolved
        = l.any (fun d => f d.1 d.2.1 d.2.2) := by
    intro l
    rw [(deliver_spec (ScWaitCondition.init f) l).2, hinit, hf, Bool.false_or]
  have hres2 : ∀ l : List (Nat × Nat × Nat),
      ((cpp.ScWaitCondition.init f).deliver l).2.base.mWaiterImpl.m_isResolved
        = l.any (fun d => f d.1 d.2.1 d.2.2) := by
    intro l
    rw [(cpp_deliver_spec (cpp.ScWaitCondition.init f) l).2, hinit2, hf2, Bool.false_or]
  have hcons : ∀ l : List (Nat × Nat × Nat),
      ((ScWaitCondition.init f).deliver l).1 = l.map (fun d => f d.1 d.2.1 d.2.2) := by
    intro l
    rw [(deliver_spec (ScWaitCondition.init f) l).1, hf]
  have hcons2 : ∀ l : List (Nat × Nat × Nat),
      ((cpp.ScWaitCondition.init f).deliver l).1 = l.map (fun d => f d.1 d.2.1 d.2.2) := by
    intro l
    rw [(cpp_deliver_spec (cpp.ScWaitCondition.init f) l).1, hf2]
  refine ⟨hcons ds, ?_, hcons2 ds, ?_, ?_, ?_⟩
  · rw [hres, List.any_eq_true]
  · rw [hres2, List.any_eq_true]
  · intro hfalse
    have : ds.any (fun d => f d.1 d.2.1 d.2.2) = false := by
      rw [List.any_eq_false]
      intro d _
      rw [hfalse]
      exact Bool.false_ne_true
    rw [hres, hres2, this]
    exact ⟨rfl, rfl⟩
  · intro d1 d2 d3 h1 h2 h3
    rw [hcons, hres, hres, hcons2, hres2, hres2]
    simp [h1, h2, h3]

/-- Witness for C12: the check function is true exactly on edge 3, the deliveries
carry the edges 1, 2 and 3. -/
theorem condition_waiter_deliveries_witness :
    ((ScWaitCondition.init (fun _ e _ => e == 3)).deliver [(9, 1, 7), (9, 2, 7), (9, 3, 7)]).1
      = [false, false, true]
    ∧ ((ScWaitCondition.init (fun _ e _ => e == 3)).deliver
        [(9, 1, 7), (9, 2, 7)]).2.base.m_waiterImpl.m_isResolved = false
    ∧ ((ScWaitCondition.init (fun _ e _ => e == 3)).deliver
        [(9, 1, 7), (9, 2, 7), (9, 3, 7)]).2.base.m_waiterImpl.m_isResolved = true := by
  obtain ⟨h1, h2, h3, _⟩ :=
    (condition_waiter_deliveries (fun _ e _ => e == 3) [] 0).2.2.2.2.2
      (9, 1, 7) (9, 2, 7) (9, 3, 7) rfl rfl rfl
  exact ⟨h1, h2, h3⟩

/-! ## The waiter -/

theorem wait_loop_resolved (endTime : Int) (wakes : List Wake) (w : WaiterImpl)
    (h : w.m_isResolved = true) : WaiterImpl.wait_loop endTime wakes w = (true, w, 0) := by
  cases wakes with
  | nil => rw [WaiterImpl.wait_loop, if_pos h]
  | cons wk rest => rw [WaiterImpl.wait_loop, if_pos h]

theorem wait_loop_never (endTime : Int) (wakes : List Wake) (w : WaiterImpl)
    (h : w.m_isResolved = false) (hw : ∀ wk ∈ wakes, wk.resolved = false) :
    (WaiterImpl.wait_loop endTime wakes w).1 = false
    ∧ (WaiterImpl.wait_loop endTime wakes w).2.1 = w
    ∧ 1 ≤ (WaiterImpl.wait_loop endTime wakes w).2.2 := by
  have hn : ¬ w.m_isResolved = true := by rw [h]; exact Bool.false_ne_true
  induction wakes with
  | nil =>
    rw [WaiterImpl.wait_loop, if_neg hn]
    exact ⟨rfl, rfl, Nat.le_refl 1⟩
  | cons wk rest ih =>
    rw [WaiterImpl.wait_loop, if_neg hn]
    by_cases ht : wk.time < endTime
    · rw [if_pos ht]
      have hsame : ({ w with m_isResolved := w.m_isResolved || wk.resolved } : WaiterImpl) = w := by
        rw [h, hw wk (List.mem_cons_self wk rest)]
        cases w
        simp_all
      rw [hsame]
      obtain ⟨i1, i2, _⟩ := ih (fun wk2 h2 => hw wk2 (List.mem_cons_of_mem wk h2))
      exact ⟨i1, i2, Nat.le_add_left 1 _⟩
    · rw [if_neg ht]
      exact ⟨rfl, rfl, Nat.le_refl 1⟩

/-- The loop on an unresolved waiter, in terms of the wake-ups that come before the
end time: it blocks once per such wake-up up to the first one that found the
waiter resolved, and once more for the call that times out when there is none. -/
theorem wait_loop_spec (endTime : Int) (wakes : List Wake) (w : WaiterImpl)
    (h : w.m_isResolved = false) :
    ((∀ wk ∈ wakes.takeWhile (fun wk => decide (wk.time < endTime)), wk.resolved = false) →
        WaiterImpl.wait_loop endTime wakes w
          = (false, w, (wakes.takeWhile (fun wk => decide (wk.time < endTime))).length + 1))
    ∧ ((∃ wk ∈ wakes.takeWhile (fun wk => decide (wk.time < endTime)), wk.resolved = true) →
        WaiterImpl.wait_loop endTime wakes w
          = (true, w.Resolve,
              ((wakes.takeWhile (fun wk => decide (wk.time < endTime))).takeWhile
                (fun wk => !wk.resolved)).length + 1)) := by
  have hn : ¬ w.m_isResolved = true := by rw [h]; exact Bool.false_ne_true
  have hw : w = { m_isResolved := false } := by
    cases w
    simp_all
  induction wakes with
  | nil =>
    constructor
    · intro _
      rw [WaiterImpl.wait_loop, if_neg hn]
      rfl
    · intro ⟨wk, hwk, _⟩
      exact absurd hwk (List.not_mem_nil wk)
  | cons wk rest ih =>
    by_cases ht : wk.time < endTime
    · have htw : (wk :: rest).takeWhile (fun wk => decide (wk.time < endTime))
          = wk :: rest.takeWhile (fun wk => decide (wk.time < endTime)) := by
        rw [List.takeWhile_cons, if_pos (decide_eq_true ht)]
      rw [htw, WaiterImpl.wait_loop, if_neg hn, if_pos ht]
      cases hr : wk.resolved with
      | true =>
        have hres : ({ w with m_isResolved := w.m_isResolved || true } : WaiterImpl)
            = w.Resolve := by
          rw [h]; rfl
        rw [hres, wait_loop_resolved endTime rest w.Resolve rfl]
        constructor
        · intro hall
          have := hall wk (List.mem_cons_self wk _)
          rw [hr] at this
          exact Bool.noConfusion this
        · intro _
          rw [List.takeWhile_cons, hr]
          rfl
      | false =>
        have hsame : ({ w with m_isResolved := w.m_isResolved || false } : WaiterImpl) = w := by
          rw [h, hw]
          rfl
        rw [hsame]
        constructor
        · intro hall
          rw [ih.1 (fun wk2 h2 => hall wk2 (List.mem_cons_of_mem wk h2))]
          rfl
        · intro ⟨wk2, h2, h3⟩
          have hin : wk2 ∈ rest.takeWhile (fun wk => decide (wk.time < endTime)) := by
            rcases List.mem_cons.mp h2 with h4 | h4
            · rw [h4, hr] at h3
              exact Bool.noConfusion h3
            · exact h4
          rw [ih.2 ⟨wk2, hin, h3⟩, List.takeWhile_cons, hr]
          rfl
    · have htw : (wk :: rest).takeWhile (fun wk => decide (wk.time < endTime)) = [] := by
        rw [List.takeWhile_cons, if_neg (by rw [decide_eq_false ht]; exact Bool.false_ne_true)]
      rw [htw, WaiterImpl.wait_loop, if_neg hn, if_neg ht]
      constructor
      · intro _
        rfl
      · intro ⟨wk2, h2, _⟩
        exact absurd h2 (List.not_mem_nil wk2)

theorem to_gint64_of_range (x : Int) (h1 : -2 ^ 63 ≤ x) (h2 : x < 2 ^ 63) :
    cpp.to_gint64 x = x := by
  unfold cpp.to_gint64
  omega

theorem wait_end_time (now : Int) (timeout_ms : Nat) (h : timeout_ms < 2 ^ 32) :
    now + ((timeout_ms % 2 ^ 32 : Nat) : Int) * G_TIME_SPAN_MILLISECOND
      = now + (timeout_ms : Int) * 1000 := by
  rw [Nat.mod_eq_of_lt h]
  rfl

theorem cpp_wait_end_time (now : Int) (timeout_ms : Nat) (h : timeout_ms < 2 ^ 64)
    (h1 : -2 ^ 63 ≤ now + (timeout_ms : Int) * 1000)
    (h2 : now + (timeout_ms : Int) * 1000 < 2 ^ 63) :
    cpp.to_gint64 (now + ((timeout_ms % 2 ^ 64 : Nat) : Int) * G_TIME_SPAN_MILLISECOND)
      = now + (timeout_ms : Int) * 1000 := by
  rw [Nat.mod_eq_of_lt h]
  exact to_gint64_of_range _ h1 h2

/-- C13. For every state of the waiter, in both versions of the header: `Resolve`
after `Resolve` gives the state of one `Resolve`, which is resolved; neither
`Resolve` nor `Wait` turns a resolved waiter into an unresolved one; a `Wait` on
a resolved waiter returns true without a single call of `g_cond_wait_until`,
for every timeout and every clock value; and a `Wait` on an unresolved waiter
that nobody resolves returns false, after blocking at least once, with the
waiter still unresolved. The return of such a `Wait` is tied to the deadline
`now + timeout_ms * 1000` (microseconds): it blocks once for every wake-up that
comes before the deadline and returns false in the next call of
`g_cond_wait_until`, the one in which the deadline passes; and when a wake-up
before the deadline finds the waiter resolved, it returns true at that wake-up,
with the waiter resolved. -/
theorem waiter_resolve_sticky (w : WaiterImpl) (now : Int) (wakes : List Wake)
    (timeout_ms : Nat) :
    w.Resolve.Resolve = w.Resolve ∧ w.Resolve.m_isResolved = true
    ∧ (w.m_isResolved = true →
        (w.Wait now wakes timeout_ms) = (true, w, 0)
          ∧ cpp.WaiterImpl.Wait w now wakes timeout_ms = (true, w, 0))
    ∧ w.Resolve.Wait now wakes timeout_ms = (true, w.Resolve, 0)
    ∧ cpp.WaiterImpl.Wait w.Resolve now wakes timeout_ms = (true, w.Resolve, 0)
    ∧ (w.m_isResolved = false → (∀ wk ∈ wakes, wk.resolved = false) →
        (w.Wait now wakes timeout_ms).1 = false
          ∧ (w.Wait now wakes timeout_ms).2.1 = w
          ∧ 1 ≤ (w.Wait now wakes timeout_ms).2.2
          ∧ (cpp.WaiterImpl.Wait w now wakes timeout_ms).1 = false
          ∧ (cpp.WaiterImpl.Wait w now wakes timeout_ms).2.1 = w
          ∧ 1 ≤ (cpp.WaiterImpl.Wait w now wakes timeout_ms).2.2)
    ∧ (w.m_isResolved = false → timeout_ms < 2 ^ 32 →
        (∀ wk ∈ wakes.takeWhile (fun wk => decide (wk.time < now + (timeout_ms : Int) * 1000)),
          wk.resolved = false) →
        w.Wait now wakes timeout_ms
          = (false, w,
              (wakes.takeWhile
                (fun wk => decide (wk.time < now + (timeout_ms : Int) * 1000))).length + 1))
    ∧ (w.m_isResolved = false → timeout_ms < 2 ^ 32 →
        (∃ wk ∈ wakes.takeWhile (fun wk => decide (wk.time < now + (timeout_ms : Int) * 1000)),
          wk.resolved = true) →
        w.Wait now wakes timeout_ms
          = (true, w.Resolve,
              ((wakes.takeWhile
                (fun wk => decide (wk.time < now + (timeout_ms : Int) * 1000))).takeWhile
                  (fun wk => !wk.resolved)).length + 1))
    ∧ (w.m_isResolved = false → timeout_ms < 2 ^ 64 →
        -2 ^ 63 ≤ now + (timeout_ms : Int) * 1000 → now + (timeout_ms : Int) * 1000 < 2 ^ 63 →
        (∀ wk ∈ wakes.takeWhile (fun wk => decide (wk.time < now + (timeout_ms : Int) * 1000)),
          wk.resolved = false) →
        cpp.WaiterImpl.Wait w now wakes timeout_ms
          = (false, w,
              (wakes.takeWhile
                (fun wk => decide (wk.time < now + (timeout_ms : Int) * 1000))).length + 1))
    ∧ (w.m_isResolved = false → timeout_ms < 2 ^ 64 →
        -2 ^ 63 ≤ now + (timeout_ms : Int) * 1000 → now + (timeout_ms : Int) * 1000 < 2 ^ 63 →
        (∃ wk ∈ wakes.takeWhile (fun wk => decide (wk.time < now + (timeout_ms : Int) * 1000)),
          wk.resolved = true) →
        cpp.WaiterImpl.Wait w now wakes timeout_ms
          = (true, w.Resolve,
              ((wakes.takeWhile
                (fun wk => decide (wk.time < now + (timeout_ms : Int) * 1000))).takeWhile
                  (fun wk => !wk.resolved)).length + 1)) := by
  refine ⟨rfl, rfl, ?_, ?_, ?_, ?_, ?_, ?_, ?_, ?_⟩
  · intro h
    exact ⟨wait_loop_resolved _ wakes w h, wait_loop_resolved _ wakes w h⟩
  · exact wait_loop_resolved _ wakes w.Resolve rfl
  · exact wait_loop_resolved _ wakes w.Resolve rfl
  · intro h hw
    obtain ⟨a1, a2, a3⟩ := wait_loop_never
      (now + ((timeout_ms % 2 ^ 32 : Nat) : Int) * G_TIME_SPAN_MILLISECOND) wakes w h hw
    obtain ⟨b1, b2, b3⟩ := wait_loop_never
      (cpp.to_gint64 (now + ((timeout_ms % 2 ^ 64 : Nat) : Int) * G_TIME_SPAN_MILLISECOND))
      wakes w h hw
    exact ⟨a1, a2, a3, b1, b2, b3⟩
  · intro h ht hall
    unfold WaiterImpl.Wait
    simp only [wait_end_time now timeout_ms ht]
    exact (wait_loop_spec _ wakes w h).1 hall
  · intro h ht hex
    unfold WaiterImpl.Wait
    simp only [wait_end_time now timeout_ms ht]
    exact (wait_loop_spec _ wakes w h).2 hex
  · intro h ht h1 h2 hall
    unfold cpp.WaiterImpl.Wait
    simp only [cpp_wait_end_time now timeout_ms ht h1 h2]
    exact (wait_loop_spec _ wakes w h).1 hall
  · intro h ht h1 h2 hex
    unfold cpp.WaiterImpl.Wait
    simp only [cpp_wait_end_time now timeout_ms ht h1 h2]
    exact (wait_loop_spec _ wakes w h).2 hex

/-- Witness for C13: a fresh waiter entered at time 0 with a timeout of 100 ms and
woken at 10, 200000 and 300000 microseconds with nobody having resolved it:
only the first wake-up comes before the deadline 100000, so the wait blocks
twice and returns false; entered after a `Resolve` with timeout 0 it returns
true without blocking. -/
theorem waiter_resolve_sticky_witness :
    WaiterImpl.init.m_isResolved = false
    ∧ WaiterImpl.init.Wait 0 [⟨10, false⟩, ⟨200000, false⟩, ⟨300000, false⟩] 100
        = (false, WaiterImpl.init, 2)
    ∧ WaiterImpl.init.Wait 0 [⟨10, false⟩, ⟨20, true⟩, ⟨300000, false⟩] 100
        = (true, WaiterImpl.init.Resolve, 2)
    ∧ WaiterImpl.init.Resolve.Wait 0 [⟨10, false⟩] 0 = (true, WaiterImpl.init.Resolve, 0) :=
  ⟨rfl,
    (waiter_resolve_sticky WaiterImpl.init 0
      [⟨10, false⟩, ⟨200000, false⟩, ⟨300000, false⟩] 100).2.2.2.2.2.2.1
      rfl (by decide) (by decide),
    (waiter_resolve_sticky WaiterImpl.init 0
      [⟨10, false⟩, ⟨20, true⟩, ⟨300000, false⟩] 100).2.2.2.2.2.2.2.1
      rfl (by decide) (by decide),
    (waiter_resolve_sticky WaiterImpl.init 0 [⟨10, false⟩] 0).2.2.2.1⟩

/-! ## `ScWait::Wait` -/

/-- C17. `ScWait::Wait` of `sc-memory/sc_wait.hpp`: for a timeout below 60000 ms the
delegate, when set, is invoked exactly once, before the first blocking call,
and the call returns the result of the waiter's `Wait` (run on the waiter as
the delegate left it); for a timeout of 60000 ms or more the assertion stops
the call and no blocking call is made (a delegate that is set has run by then);
the default timeout is 5000 ms. -/
theorem scwait_wait_contract (w : ScWait) (now : Int) (wakes : List Wake) (timeout_ms : Nat) :
    (timeout_ms < 60000 → ∀ d, w.m_waitStartDelegate = some d →
        w.Wait now wakes timeout_ms
          = (Ev.delegate
              :: List.replicate ((d w.m_waiterImpl).Wait now wakes timeout_ms).2.2 Ev.cond_wait,
            .ok (((d w.m_waiterImpl).Wait now wakes timeout_ms).1,
              { w with m_waiterImpl := ((d w.m_waiterImpl).Wait now wakes timeout_ms).2.1 })))
    ∧ (timeout_ms < 60000 → w.m_waitStartDelegate = none →
        w.Wait now wakes timeout_ms
          = (List.replicate (w.m_waiterImpl.Wait now wakes timeout_ms).2.2 Ev.cond_wait,
            .ok ((w.m_waiterImpl.Wait now wakes timeout_ms).1,
              { w with m_waiterImpl := (w.m_waiterImpl.Wait now wakes timeout_ms).2.1 })))
    ∧ (60000 ≤ timeout_ms →
        (w.Wait now wakes timeout_ms).2 = .error .assertion
          ∧ Ev.cond_wait ∉ (w.Wait now wakes timeout_ms).1
          ∧ (w.Wait now wakes timeout_ms).1
              = if w.m_waitStartDelegate.isSome then [Ev.delegate] else [])
    ∧ w.Wait_default now wakes = w.Wait now wakes 5000
    ∧ ScWait.Wait_default_timeout_ms < 60000 := by
  refine ⟨?_, ?_, ?_, rfl, by decide⟩
  · intro ht d hd
    obtain ⟨impl, del⟩ := w
    simp only at hd
    subst hd
    unfold ScWait.Wait
    rw [if_pos ht]
    rfl
  · intro ht hd
    obtain ⟨impl, del⟩ := w
    simp only at hd
    subst hd
    unfold ScWait.Wait
    rw [if_pos ht]
    rfl
  · intro ht
    have hn : ¬ timeout_ms < 60000 := by omega
    unfold ScWait.Wait
    rw [if_neg hn]
    cases w.m_waitStartDelegate with
    | none => exact ⟨rfl, by simp, rfl⟩
    | some d => exact ⟨rfl, by simp, rfl⟩

/-- Witness for C17: a waiter whose delegate resolves it, entered with a timeout of
100 ms, runs the delegate and returns true without blocking; with a timeout of
60000 ms the assertion stops the call. -/
theorem scwait_wait_contract_witness :
    (100 : Nat) < 60000
    ∧ (ScWait.Wait ⟨WaiterImpl.init, some WaiterImpl.Resolve⟩ 0 [] 100).1 = [Ev.delegate]
    ∧ (60000 : Nat) ≤ 60000
    ∧ (ScWait.Wait ⟨WaiterImpl.init, some WaiterImpl.Resolve⟩ 0 [] 60000).2
        = .error .assertion := by
  have h1 := (scwait_wait_contract ⟨WaiterImpl.init, some WaiterImpl.Resolve⟩ 0 [] 100).1
    (by decide) WaiterImpl.Resolve rfl
  have h2 := ((scwait_wait_contract ⟨WaiterImpl.init, some WaiterImpl.Resolve⟩ 0 [] 60000).2.2.1
    (by decide)).1
  exact ⟨by decide, by rw [h1]; rfl, by decide, h2⟩

end Waiting
